import Mathlib

/-!
Verification of the `ratio_map` class in `code/libraries/ratio_density.py`.

Shallow embedding conventions:
* A numpy 2D array of floats is a `Grid := List (List Cell)` with `Cell := Option ℚ`;
  `none` models NaN (undefined / masked pixels).  All arrays produced by the code are
  rectangular; rectangularity appears as a hypothesis where a theorem needs it.
* Floating point numbers are modelled by exact rationals.  Division by zero (which in
  numpy yields non-finite values) is modelled as `none`; no claim exercises zero divisors.
  The constructor's division `data1 / data2` models numpy broadcasting (`gridDivE`):
  broadcast-compatible shapes combine, incompatible shapes raise `ValueError`.  The
  elementwise operations of the uncertainty path (`gridZip`) are modelled only on equal
  shapes, raising on a mismatch; the claims exercise them only at equal or
  non-broadcast-compatible shapes, where this is faithful to numpy.
* A raised Python exception is `Except.error e` with `e : PyErr`; uncaught exceptions
  propagate through `Except`.
* External collaborators that are not part of this repository are modelled from the spec
  where they are needed: polynomial evaluation (`functions.get_poly_function`), the
  bracketed root finder (`scipy.optimize.brentq`) and `np.sqrt`.
-/

/-- Python exception kinds raised by the modelled code paths. -/
inductive PyErr
  | valueError
  | indexError
  | attributeError
deriving DecidableEq

deriving instance DecidableEq for Except

/-- One pixel of a float array: `none` models NaN. -/
abbrev Cell := Option ℚ

/-- A 2D numpy array of floats, row major. -/
abbrev Grid := List (List Cell)

/-- Read pixel `[y][x]`; out-of-range reads give `none` (theorems only use in-range reads). -/
def getCell (g : Grid) (y x : ℕ) : Cell := (g.getD y []).getD x none

/-- Write pixel `[y][x]`; out-of-range writes are dropped (theorems only use in-range writes). -/
def setCell (g : Grid) (y x : ℕ) (v : Cell) : Grid := g.set y ((g.getD y []).set x v)

/-- Row lengths; for the rectangular arrays produced by numpy this determines `.shape`. -/
def gridShape (g : Grid) : List ℕ := g.map List.length

/-- `g` is a rectangular `h × w` array. -/
def rectGrid (g : Grid) (h w : ℕ) : Prop :=
  g.length = h ∧ ∀ y, y < h → (g.getD y []).length = w

instance (g : Grid) (h w : ℕ) : Decidable (rectGrid g h w) := by
  unfold rectGrid
  infer_instance

/-- numpy elementwise arithmetic on floats: NaN propagates. -/
def cellBin (f : ℚ → ℚ → ℚ) : Cell → Cell → Cell
  | some a, some b => some (f a b)
  | _, _ => none

/-- numpy elementwise unary float function: NaN propagates. -/
def cellMap (f : ℚ → ℚ) : Cell → Cell := Option.map f

/-- numpy elementwise division; a zero divisor yields a non-finite float, modelled `none`. -/
def cellDiv : Cell → Cell → Cell
  | some a, some b => if b = 0 then none else some (a / b)
  | _, _ => none

/-- Elementwise combination of two equal-shaped arrays; a mismatch raises (numpy
`ValueError`).  This is the model used for the uncertainty-path operations, whose
claims exercise only equal or non-broadcast-compatible shapes, where it is faithful to
numpy; see `gridDivE` for the broadcasting model of the constructor's division. -/
def gridZip (f : Cell → Cell → Cell) (g1 g2 : Grid) : Except PyErr Grid :=
  if gridShape g1 = gridShape g2 then .ok (List.zipWith (List.zipWith f) g1 g2)
  else .error .valueError

/-- Length of the second axis of a (numpy-rectangular) 2D array: the length of row 0. -/
def gridWidth (g : Grid) : ℕ := (g.getD 0 []).length

/-- numpy broadcasting along one axis: two sizes are compatible when they are equal or
one of them is 1, and the broadcast size is the larger; `none` means incompatible. -/
def bcLen (a b : ℕ) : Option ℕ :=
  if a = b then some a else if a = 1 then some b else if b = 1 then some a else none

/-- Reading index along a possibly broadcast axis: a size-1 axis is replicated. -/
def bcIndex (n i : ℕ) : ℕ := if n = 1 then 0 else i

/-- The broadcast combination of two 2D arrays at the broadcast shape `h × w`. -/
def gridBroadcast (f : Cell → Cell → Cell) (g1 g2 : Grid) (h w : ℕ) : Grid :=
  (List.range h).map (fun y : ℕ => (List.range w).map (fun x : ℕ =>
    f (getCell g1 (bcIndex g1.length y) (bcIndex (gridWidth g1) x))
      (getCell g2 (bcIndex g2.length y) (bcIndex (gridWidth g2) x))))

/-- Elementwise unary function on an array. -/
def gridMap (f : ℚ → ℚ) (g : Grid) : Grid := g.map (List.map (cellMap f))

/-- Array multiplied by a scalar. -/
def gridScale (g : Grid) (c : ℚ) : Grid := gridMap (· * c) g

/-- Elementwise subtraction of equal-shaped arrays (callers guarantee equal shapes). -/
def gridSub (g1 g2 : Grid) : Grid := List.zipWith (List.zipWith (cellBin (· - ·))) g1 g2

/-- `data1 / data2` from `ratio_map.__init__` (line 34): numpy elementwise division
*with broadcasting* — equal shapes divide pixelwise, broadcast-compatible unequal
shapes divide at the broadcast shape, and only non-broadcast-compatible shapes raise
`ValueError`. -/
def gridDivE (g1 g2 : Grid) : Except PyErr Grid :=
  if gridShape g1 = gridShape g2 then .ok (List.zipWith (List.zipWith cellDiv) g1 g2)
  else
    match bcLen g1.length g2.length, bcLen (gridWidth g1) (gridWidth g2) with
    | some h, some w => .ok (gridBroadcast cellDiv g1 g2 h w)
    | _, _ => .error .valueError

/-- Elementwise addition, raising on shape mismatch. -/
def gridAddE (g1 g2 : Grid) : Except PyErr Grid := gridZip (cellBin (· + ·)) g1 g2

/-- Elementwise multiplication, raising on shape mismatch. -/
def gridMulE (g1 g2 : Grid) : Except PyErr Grid := gridZip (cellBin (· * ·)) g1 g2

/-- `np.zeros((h, w))` followed by filling with NaN (lines 318-321). -/
def nanGrid (h w : ℕ) : Grid := List.replicate h (List.replicate w none)

/-- Column indices of the non-NaN entries of one row, ascending. -/
def nonNanRow (row : List Cell) : List ℕ :=
  (List.range row.length).filter (fun x => (row.getD x none).isSome)

/-- `np.where(~np.isnan(g))` as a row-major list of `(y, x)` pairs. -/
def nonNanIndices (g : Grid) : List (ℕ × ℕ) :=
  (List.range g.length).flatMap (fun y => (nonNanRow (g.getD y [])).map (fun x => (y, x)))

/-- Checked pixel read `g[y][x]`: raises `IndexError` out of range. -/
def getCellE (g : Grid) (y x : ℕ) : Except PyErr Cell :=
  if y < g.length ∧ x < (g.getD y []).length then .ok (getCell g y x) else .error .indexError

/-- Modelled from the spec: the polynomial-evaluation collaborator
(`functions.get_poly_function`, not in this repository).  Coefficients are taken
lowest-degree first; the claims do not depend on the coefficient convention. -/
def polyEval : List ℚ → ℚ → ℚ
  | [], _ => 0
  | c :: cs, x => c + x * polyEval cs x

/-- Modelled from the spec: `functions.get_poly_function_min_yval` (not in this repository),
the polynomial shifted by the target ratio, whose root is the recovered density. -/
def polyMinY (popt : List ℚ) (x yval : ℚ) : ℚ := polyEval popt x - yval

/-- A bound on `|polyEval p x|` over `|x| ≤ M`. -/
def polyBound : List ℚ → ℚ → ℚ
  | [], _ => 0
  | c :: cs, M => |c| + M * polyBound cs M

/-- A Lipschitz constant for `polyEval p` over `|x| ≤ M`. -/
def polyLip : List ℚ → ℚ → ℚ
  | [], _ => 0
  | _ :: cs, M => polyBound cs M + M * polyLip cs M

/-- Radius of an interval `[a, b]` around zero. -/
def polyM (a b : ℚ) : ℚ := max |a| |b|

/-- Plain bisection with a fuel budget, keeping a sign change; returns the midpoint of the
final interval. -/
def bisect (f : ℚ → ℚ) : ℕ → ℚ → ℚ → ℚ
  | 0, a, b => (a + b) / 2
  | k + 1, a, b =>
      let c := (a + b) / 2
      if f a * f c ≤ 0 then bisect f k a c else bisect f k c b

/-- Modelled from the spec: `scipy.optimize.brentq` (an external library), the bracketed
root finder "requiring sign change at the bracket endpoints".  It raises `ValueError`
when `f a` and `f b` have the same (nonzero) sign, returns an endpoint that is an exact
root, and otherwise refines the bracket; `N` is the iteration budget standing in for the
solver's floating-point working precision. -/
def brentq (N : ℕ) (f : ℚ → ℚ) (a b : ℚ) : Except PyErr ℚ :=
  if f a * f b > 0 then .error .valueError
  else if f a = 0 then .ok a
  else if f b = 0 then .ok b
  else .ok (bisect f N a b)

/-- Modelled from the spec: `np.sqrt` on a nonnegative rational, exact on perfect squares
(the claims below only evaluate it on perfect squares). -/
def ratSqrt (q : ℚ) : ℚ := (Nat.sqrt q.num.toNat : ℚ) / (Nat.sqrt q.den : ℚ)

/-- One entry of the `rel_uncs` argument: a Python float or a numpy array. -/
inductive UncInput
  | flt (v : ℚ)
  | arr (g : Grid)
deriving DecidableEq

/-- The attributes of a `ratio_map` instance settled during `__init__`.
`astro_image = none` models the attribute never having been set because
`data1 / data2` raised (the modelled `Astro_Image` base class, absent from this
repository, stores the ratio grid as `.astro_image` — per the spec's description
of the collaborator). -/
structure RatioMapState where
  astro_image : Option Grid
  rat_unc : Option Grid
deriving DecidableEq

/-- `ratio_map.__verify_input_uncertainty` (lines 283-293).  Note the source tests
`rel_uncs[0].shape` twice and never `rel_uncs[1].shape` (line 288); the model keeps
that slip.  Accessing `.astro_image` when it was never set raises `AttributeError`. -/
def verify_input_uncertainty (astro : Option Grid) (u0 u1 : UncInput) : Except PyErr Bool :=
  match u0, u1 with
  | UncInput.flt _, UncInput.flt _ => .ok true
  | UncInput.arr g0, UncInput.arr _ =>
      match astro with
      | none => .error .attributeError
      | some a =>
          if gridShape g0 = gridShape a ∧ gridShape g0 = gridShape a then .ok true
          else .ok false
  | _, _ => .ok false

/-- `ratio_map.__create_uncertainty_array` (lines 296-299), parameterized by the model
`s` of `np.sqrt`: `rel_unc = sqrt(rel_uncs[0]**2 + rel_uncs[1]**2)` is computed first,
then `self.astro_image * rel_unc`.  No absolute value is taken anywhere. -/
def create_uncertainty_array (s : ℚ → ℚ) (astro : Option Grid) (u0 u1 : UncInput) :
    Except PyErr Grid :=
  match u0, u1 with
  | UncInput.flt v0, UncInput.flt v1 =>
      match astro with
      | none => .error .attributeError
      | some a => .ok (gridScale a (s (v0 ^ 2 + v1 ^ 2)))
  | UncInput.arr g0, UncInput.arr g1 =>
      match gridAddE (gridMap (fun q => q ^ 2) g0) (gridMap (fun q => q ^ 2) g1) with
      | .error e => .error e
      | .ok sq =>
          match astro with
          | none => .error .attributeError
          | some a => gridMulE a (gridMap s sq)
  | UncInput.flt v0, UncInput.arr g1 =>
      match astro with
      | none => .error .attributeError
      | some a => gridMulE a (gridMap (fun q => s (v0 ^ 2 + q ^ 2)) g1)
  | UncInput.arr g0, UncInput.flt v1 =>
      match astro with
      | none => .error .attributeError
      | some a => gridMulE a (gridMap (fun q => s (q ^ 2 + v1 ^ 2)) g0)

/-- `ratio_map.__init__` (lines 32-47).  The bare `except` around `data1 / data2` only
prints, leaving `astro_image` unset; the `rel_uncs` handling that follows is *not*
inside any `try`, so exceptions raised there propagate to the caller. -/
def ratio_map_init (s : ℚ → ℚ) (data1 data2 : Grid) (rel_uncs : Option (List UncInput)) :
    Except PyErr RatioMapState :=
  let astro : Option Grid :=
    match gridDivE data1 data2 with
    | .ok g => some g
    | .error _ => none
  match rel_uncs with
  | none => .ok ⟨astro, none⟩
  | some uncs =>
      match uncs with
      | [u0, u1] =>
          match verify_input_uncertainty astro u0 u1 with
          | .error e => .error e
          | .ok true =>
              match create_uncertainty_array s astro u0 u1 with
              | .error e => .error e
              | .ok u => .ok ⟨astro, some u⟩
          | .ok false => .ok ⟨astro, none⟩
      | _ => .ok ⟨astro, none⟩

/-- The value of one `rel_uncs` entry at pixel `(y, x)`: a float is a constant field, an
array is read pixelwise. -/
def uncInputCell : UncInput → ℕ → ℕ → Cell
  | UncInput.flt v, _, _ => some v
  | UncInput.arr g, y, x => getCell g y x

/-- Pixel `(y, x)` of `rel_unc = np.sqrt(rel_uncs[0]**2 + rel_uncs[1]**2)` (line 297):
the combined relative uncertainty at that pixel. -/
def relUncCell (s : ℚ → ℚ) (u0 u1 : UncInput) (y x : ℕ) : Cell :=
  cellMap s (cellBin (fun p q => p ^ 2 + q ^ 2) (uncInputCell u0 y x) (uncInputCell u1 y x))

/-- `data[y][x] + self.rat_unc[y][x]` (line 330). -/
def up_err (r u : ℚ) : ℚ := r + u

/-- `data[y][x] - self.rat_unc[y][x]` (line 334). -/
def low_err (r u : ℚ) : ℚ := r - u

/-- The body of the pixel loop of `ratio_map.__calculate_density` (lines 324-336) for one
non-NaN pixel `(y, x)` holding ratio `r`: the central root-find, then, when an
uncertainty grid exists, the `up` side guarded only by `up_err < max_rat` and the `low`
side guarded only by `low_err > min_rat` (a NaN uncertainty makes both comparisons
false).  Returns `(value, up cell, low cell)`; any raise propagates. -/
def processPixel (N : ℕ) (rat_unc : Option Grid) (x_beg x_end min_rat max_rat : ℚ)
    (popt : List ℚ) (y x : ℕ) (r : ℚ) : Except PyErr (ℚ × Cell × Cell) :=
  match brentq N (fun t => polyMinY popt t r) x_beg x_end with
  | .error e => .error e
  | .ok n =>
      match rat_unc with
      | none => .ok (n, none, none)
      | some unc =>
          match getCellE unc y x with
          | .error e => .error e
          | .ok ucell =>
              let upres : Except PyErr Cell :=
                match ucell with
                | none => .ok none
                | some u =>
                    if up_err r u < max_rat then
                      match brentq N (fun t => polyMinY popt t (up_err r u)) x_beg x_end with
                      | .error e => .error e
                      | .ok m => .ok (some m)
                    else .ok none
              match upres with
              | .error e => .error e
              | .ok upc =>
                  let lowres : Except PyErr Cell :=
                    match ucell with
                    | none => .ok none
                    | some u =>
                        if min_rat < low_err r u then
                          match brentq N (fun t => polyMinY popt t (low_err r u)) x_beg x_end with
                          | .error e => .error e
                          | .ok m => .ok (some m)
                        else .ok none
                  match lowres with
                  | .error e => .error e
                  | .ok lowc => .ok (n, upc, lowc)

/-- The pixel loop of `ratio_map.__calculate_density` over the listed indices,
threading the three result grids `(vals, vals_err_low, vals_err_up)`.  Each pixel is
written at most once (the index list has no duplicates), so writing the computed cell
unconditionally coincides with the source's write-under-`if`. -/
def densLoop (N : ℕ) (rat_unc : Option Grid) (data : Grid)
    (x_beg x_end min_rat max_rat : ℚ) (popt : List ℚ) :
    List (ℕ × ℕ) → Grid × Grid × Grid → Except PyErr (Grid × Grid × Grid)
  | [], acc => .ok acc
  | p :: rest, acc =>
      match getCell data p.1 p.2 with
      | none => .error .indexError
      | some r =>
          match processPixel N rat_unc x_beg x_end min_rat max_rat popt p.1 p.2 r with
          | .error e => .error e
          | .ok t =>
              densLoop N rat_unc data x_beg x_end min_rat max_rat popt rest
                (setCell acc.1 p.1 p.2 (some t.1),
                 setCell acc.2.1 p.1 p.2 t.2.2,
                 setCell acc.2.2 p.1 p.2 t.2.1)

/-- `ratio_map.__calculate_density` (lines 316-338): three NaN-filled result grids shaped
`(len(data), len(data[0]))`, then one (up to three) root-find per non-NaN pixel.
`len(data[0])` raises on an empty array.  Returns `(vals, vals_err_low, vals_err_up)`. -/
def calculate_density (N : ℕ) (rat_unc : Option Grid) (data : Grid)
    (x_beg x_end min_rat max_rat : ℚ) (popt : List ℚ) : Except PyErr (Grid × Grid × Grid) :=
  match data with
  | [] => .error .indexError
  | row0 :: _ =>
      let nan := nanGrid data.length row0.length
      match densLoop N rat_unc data x_beg x_end min_rat max_rat popt
          (nonNanIndices data) (nan, nan, nan) with
      | .error e => .error e
      | .ok acc => .ok (acc.1, acc.2.1, acc.2.2)

/-- First index (and value) minimizing `|entry - v|`, i.e. `np.argmin(np.abs(array - v))`
followed by the lookup `array[idx]`; `np.argmin` keeps the first occurrence of the
minimum.  `none` on the empty array (numpy raises). -/
def argminAbs (v : ℚ) : List ℚ → Option (ℕ × ℚ)
  | [] => none
  | o :: rest =>
      match argminAbs v rest with
      | none => some (0, o)
      | some (j, w) => if |w - v| < |o - v| then some (j + 1, w) else some (0, o)

/-- `ratio_map.__find_nearest_value` (lines 410-413). -/
def find_nearest_value (array : List ℚ) (value : ℚ) : Except PyErr ℚ :=
  match argminAbs value array with
  | none => .error .valueError
  | some jw => .ok jw.2

/-- One pixel of `ratio_map.__get_nearest_map`: NaN passes through, a value is replaced
by the nearest candidate. -/
def cellNearest (options : List ℚ) : Cell → Except PyErr Cell
  | none => .ok none
  | some v =>
      match find_nearest_value options v with
      | .error e => .error e
      | .ok m => .ok (some m)

/-- `ratio_map.__get_nearest_map` (lines 342-358): pixelwise nearest-candidate
replacement on the rectangular input, then `diff_map = real_map - new_map`. -/
def get_nearest_map (real_map : Grid) (options_list : List ℚ) : Except PyErr (Grid × Grid) :=
  match real_map.mapM (fun row => row.mapM (cellNearest options_list)) with
  | .error e => .error e
  | .ok new_map => .ok (new_map, gridSub real_map new_map)

/-- `ratio_map.__add_results_to_global_map` (lines 457-462): copy every non-NaN pixel of
the local map into the global map at the same coordinates. -/
def add_results_to_global_map (global_map local_map : Grid) : Grid :=
  (nonNanIndices local_map).foldl
    (fun g p => setCell g p.1 p.2 (getCell local_map p.1 p.2)) global_map

/-- `np.linspace a b n` (exact rational arithmetic). -/
def linspace (a b : ℚ) (n : ℕ) : List ℚ :=
  (List.range n).map (fun i : ℕ => a + (i : ℚ) * ((b - a) / ((n : ℚ) - 1)))

/-- `ratio_map.get_ratio_curve` (lines 194-198): evaluate the fitted polynomial on the
axis (`funcs.get_poly_function` modelled by `polyEval`). -/
def get_ratio_curve (x_vals : List ℚ) (popt : List ℚ) : List ℚ := x_vals.map (polyEval popt)

/-- `ratio_map.get_curve_vals` (lines 202-206), taking the `df["nH2"]` column of the
sample table: resample the density axis from the first to the last sampled density with
`len(df)` points and evaluate the curve there. -/
def get_curve_vals (nH2 : List ℚ) (popt : List ℚ) : List ℚ × List ℚ :=
  let x_curve := linspace (nH2.getD 0 0) (nH2.getD (nH2.length - 1) 0) nH2.length
  (x_curve, get_ratio_curve x_curve popt)

/-- `np.nanmin` on an all-finite array (the fitted curve has no NaN); raises on empty. -/
def nanmin : List ℚ → Except PyErr ℚ
  | [] => .error .valueError
  | v :: rest => .ok (rest.foldl min v)

/-- `np.nanmax` on an all-finite array; raises on empty. -/
def nanmax : List ℚ → Except PyErr ℚ
  | [] => .error .valueError
  | v :: rest => .ok (rest.foldl max v)

/-- `ratio_map.__get_min_max_from_fitted_ratio_curve` (lines 439-444). -/
def get_min_max_from_fitted_ratio_curve (curve_vals : List ℚ) : Except PyErr (ℚ × ℚ) :=
  match nanmin curve_vals with
  | .error e => .error e
  | .ok mn =>
      match nanmax curve_vals with
      | .error e => .error e
      | .ok mx => .ok (mn, mx)

/-- `ratio_map.__verify_equality_in_list` (lines 399-406): `ver_list[0]` raises
`IndexError` on an empty list; otherwise scan for a nonzero difference. -/
def verify_equality_in_list (ver_list : List ℚ) : Except PyErr Bool :=
  match ver_list with
  | [] => .error .indexError
  | v :: _ => .ok (ver_list.all (fun val => decide (v - val = 0)))

/-- Digits-only numeral; `none` models `float()` raising `ValueError`. -/
def parseNatDigits (cs : List Char) : Option ℕ :=
  if cs.all Char.isDigit then some (cs.foldl (fun a c => a * 10 + (c.toNat - 48)) 0)
  else none

/-- Python `float()` restricted to the unsigned decimal literals the filename convention
produces (digits with at most one decimal point); anything else models `ValueError`. -/
def parseDecimal (str : String) : Option ℚ :=
  match str.splitOn "." with
  | [i] =>
      match parseNatDigits i.data with
      | none => none
      | some n => if i.data = [] then none else some (n : ℚ)
  | [i, fr] =>
      match parseNatDigits i.data, parseNatDigits fr.data with
      | some ni, some nf =>
          if i.data = [] ∧ fr.data = [] then none
          else some ((ni : ℚ) + (nf : ℚ) / 10 ^ fr.data.length)
      | _, _ => none
  | _ => none

/-- `f.split('_')[-1].split('.')[0]` with `'p'` replaced by `'.'`, then `float()`
(lines 219-220). -/
def extract_colDens (f : String) : Option ℚ :=
  parseDecimal ((((f.splitOn "_").getLastD "").splitOn ".").headD "" |>.replace "p" ".")

/-- `f.split('.')[-1] == 'dat'` (line 212). -/
def isDatFile (f : String) : Bool := (f.splitOn ".").getLastD "" == "dat"

/-- Accumulator of the catalog loop of `get_colDens_list_from_files`:
the distinct column densities, the per-density file lists, and the per-density counts. -/
structure CatalogAcc where
  return_list : List ℚ
  file_names : List (ℚ × List String)
  count_list : List ℚ

/-- Append a path to the file list of the (present) key `k`. -/
def assocAppend (l : List (ℚ × List String)) (k : ℚ) (p : String) : List (ℚ × List String) :=
  l.map (fun kv => if kv.1 = k then (kv.1, kv.2 ++ [p]) else kv)

/-- One iteration of the file loop of `get_colDens_list_from_files` (lines 218-228). -/
def catalogStep (grid_path : String) (acc : CatalogAcc) (f : String) : Except PyErr CatalogAcc :=
  match extract_colDens f with
  | none => .error .valueError
  | some colDens =>
      let path := grid_path ++ "/" ++ f
      if colDens ∈ acc.return_list then
        match acc.return_list.indexOf? colDens with
        | none => .error .valueError
        | some ind =>
            .ok ⟨acc.return_list, assocAppend acc.file_names colDens path,
                  acc.count_list.set ind (acc.count_list.getD ind 0 + 1)⟩
      else
        .ok ⟨acc.return_list ++ [colDens], acc.file_names ++ [(colDens, [path])],
              acc.count_list ++ [1]⟩

/-- Fold of `catalogStep` over the eligible files. -/
def catalogFold (grid_path : String) : List String → CatalogAcc → Except PyErr CatalogAcc
  | [], acc => .ok acc
  | f :: rest, acc =>
      match catalogStep grid_path acc f with
      | .error e => .error e
      | .ok acc2 => catalogFold grid_path rest acc2

/-- `ratio_map.get_colDens_list_from_files` (lines 210-234), with the directory listing
(the names of the plain files in `grid_path`) supplied as input in place of the
`os.listdir` call: filter the `.dat` files, group them by the column density encoded in
the filename, then check the per-density counts with `__verify_equality_in_list` —
which indexes element 0 of the count list and so raises `IndexError` when no file was
eligible.  The consistency warning is print-only; the result is returned regardless. -/
def get_colDens_list_from_files (grid_path : String) (files : List String) :
    Except PyErr (List ℚ × List (ℚ × List String)) :=
  let eligible := files.filter isDatFile
  match catalogFold grid_path eligible ⟨[], [], []⟩ with
  | .error e => .error e
  | .ok acc =>
      match verify_equality_in_list acc.count_list with
      | .error e => .error e
      | .ok _ => .ok (acc.return_list, acc.file_names)

/-! ### Basic list and grid lemmas -/

theorem getD_set_self {α : Type} (l : List α) (i : ℕ) (v d : α) (h : i < l.length) :
    (l.set i v).getD i d = v := by
  rw [List.getD_eq_getElem?_getD, List.getElem?_set_self h]
  rfl

theorem getD_set_ne {α : Type} (l : List α) (i j : ℕ) (v d : α) (h : i ≠ j) :
    (l.set i v).getD j d = l.getD j d := by
  rw [List.getD_eq_getElem?_getD, List.getElem?_set_ne h, ← List.getD_eq_getElem?_getD]

theorem length_setCell (g : Grid) (y x : ℕ) (v : Cell) :
    (setCell g y x v).length = g.length :=
  List.length_set g y ((g.getD y []).set x v)

theorem rowlen_setCell (g : Grid) (y x : ℕ) (v : Cell) (z : ℕ) :
    ((setCell g y x v).getD z []).length = (g.getD z []).length := by
  unfold setCell
  by_cases hy : y = z
  · subst hy
    by_cases hlt : y < g.length
    · rw [getD_set_self _ _ _ _ hlt, List.length_set]
    · rw [List.set_eq_of_length_le (le_of_not_lt hlt)]
  · rw [getD_set_ne _ _ _ _ _ hy]

theorem getCell_setCell_self (g : Grid) (y x : ℕ) (v : Cell)
    (hy : y < g.length) (hx : x < (g.getD y []).length) :
    getCell (setCell g y x v) y x = v := by
  unfold getCell setCell
  rw [getD_set_self _ _ _ _ hy, getD_set_self _ _ _ _ hx]

theorem getCell_setCell_ne (g : Grid) (y x : ℕ) (v : Cell) (z t : ℕ)
    (h : (z, t) ≠ (y, x)) :
    getCell (setCell g y x v) z t = getCell g z t := by
  unfold getCell setCell
  by_cases hy : y = z
  · subst hy
    have hx : x ≠ t := by
      intro he
      exact h (by rw [he])
    by_cases hlt : y < g.length
    · rw [getD_set_self _ _ _ _ hlt, getD_set_ne _ _ _ _ _ hx]
    · rw [List.set_eq_of_length_le (le_of_not_lt hlt)]
  · rw [getD_set_ne _ _ _ _ _ hy]

theorem rect_setCell {g : Grid} {h w : ℕ} (hg : rectGrid g h w) (y x : ℕ) (v : Cell) :
    rectGrid (setCell g y x v) h w := by
  refine ⟨by rw [length_setCell, hg.1], fun z hz => ?_⟩
  rw [rowlen_setCell]
  exact hg.2 z hz

theorem rect_nanGrid (h w : ℕ) : rectGrid (nanGrid h w) h w := by
  refine ⟨List.length_replicate h _, fun y hy => ?_⟩
  have hy2 : y < (List.replicate h (List.replicate w (none : Cell))).length := by
    simpa using hy
  rw [nanGrid, List.getD_eq_getElem _ _ hy2, List.getElem_replicate]
  simp

theorem getCell_nanGrid (h w y x : ℕ) : getCell (nanGrid h w) y x = none := by
  unfold getCell nanGrid
  by_cases hy : y < h
  · have hy2 : y < (List.replicate h (List.replicate w (none : Cell))).length := by
      simpa using hy
    rw [List.getD_eq_getElem _ _ hy2, List.getElem_replicate]
    by_cases hx : x < w
    · have hx2 : x < (List.replicate w (none : Cell)).length := by simpa using hx
      rw [List.getD_eq_getElem _ _ hx2, List.getElem_replicate]
    · exact List.getD_eq_default _ _ (by simpa using le_of_not_lt hx)
  · have hrow : (List.replicate h (List.replicate w (none : Cell))).getD y [] = [] :=
      List.getD_eq_default _ _ (by simpa using le_of_not_lt hy)
    rw [hrow]
    simp [List.getD]

theorem mem_nonNanRow {row : List Cell} {x : ℕ} :
    x ∈ nonNanRow row ↔ x < row.length ∧ (row.getD x none).isSome := by
  unfold nonNanRow
  simp [List.mem_filter, List.mem_range]

theorem mem_nonNanIndices {g : Grid} {y x : ℕ} :
    (y, x) ∈ nonNanIndices g ↔ (getCell g y x).isSome := by
  unfold nonNanIndices
  simp only [List.mem_flatMap, List.mem_map, List.mem_range]
  constructor
  · rintro ⟨z, hz, t, ht, heq⟩
    obtain ⟨rfl, rfl⟩ := Prod.mk.injEq .. ▸ heq
    exact (mem_nonNanRow.1 ht).2
  · intro hsome
    have hy : y < g.length := by
      by_contra hy
      have hrow : g.getD y [] = [] := List.getD_eq_default _ _ (le_of_not_lt hy)
      rw [getCell, hrow] at hsome
      simp [List.getD] at hsome
    have hx : x < (g.getD y []).length := by
      by_contra hx
      have : (g.getD y []).getD x none = none := List.getD_eq_default _ _ (le_of_not_lt hx)
      rw [getCell, this] at hsome
      simp at hsome
    exact ⟨y, hy, x, mem_nonNanRow.2 ⟨hx, hsome⟩, rfl⟩

theorem nonNan_lt_of_rect {g : Grid} {h w : ℕ} (hg : rectGrid g h w) {y x : ℕ}
    (hmem : (y, x) ∈ nonNanIndices g) : y < h ∧ x < w := by
  have hsome := mem_nonNanIndices.1 hmem
  have hy : y < g.length := by
    by_contra hy
    have hrow : g.getD y [] = [] := List.getD_eq_default _ _ (le_of_not_lt hy)
    rw [getCell, hrow] at hsome
    simp [List.getD] at hsome
  have hyh : y < h := hg.1 ▸ hy
  refine ⟨hyh, ?_⟩
  have hx : x < (g.getD y []).length := by
    by_contra hx
    have : (g.getD y []).getD x none = none := List.getD_eq_default _ _ (le_of_not_lt hx)
    rw [getCell, this] at hsome
    simp at hsome
  rw [hg.2 y hyh] at hx
  exact hx

theorem list_ext_getD {α : Type} (d : α) :
    ∀ (l1 l2 : List α), l1.length = l2.length →
      (∀ i, l1.getD i d = l2.getD i d) → l1 = l2
  | [], [], _, _ => rfl
  | [], _ :: _, h, _ => by simp at h
  | _ :: _, [], h, _ => by simp at h
  | a :: l1, b :: l2, h, hi => by
      have h0 := hi 0
      simp only [List.getD_cons_zero] at h0
      have htail := list_ext_getD d l1 l2 (by simpa using h)
        (fun i => by simpa only [List.getD_cons_succ] using hi (i + 1))
      rw [h0, htail]

theorem grid_ext (g1 g2 : Grid) (hlen : g1.length = g2.length)
    (hrow : ∀ y, (g1.getD y []).length = (g2.getD y []).length)
    (hcell : ∀ y x, getCell g1 y x = getCell g2 y x) : g1 = g2 :=
  list_ext_getD [] g1 g2 hlen (fun y => list_ext_getD none _ _ (hrow y) (fun x => hcell y x))

/-! ### Polynomial bounds and the bracketed root finder -/

theorem abs_le_polyM {a b x : ℚ} (ha : a ≤ x) (hb : x ≤ b) : |x| ≤ polyM a b := by
  unfold polyM
  rw [abs_le]
  constructor
  · have h1 : |a| ≤ max |a| |b| := le_max_left _ _
    have h2 : -|a| ≤ a := neg_abs_le a
    linarith
  · have h1 : |b| ≤ max |a| |b| := le_max_right _ _
    have h2 : b ≤ |b| := le_abs_self b
    linarith

theorem polyBound_nonneg (p : List ℚ) (M : ℚ) (hM : 0 ≤ M) : 0 ≤ polyBound p M := by
  induction p with
  | nil => simp [polyBound]
  | cons c cs ih =>
    simp only [polyBound]
    have h1 := mul_nonneg hM ih
    have h2 := abs_nonneg c
    linarith

theorem polyEval_abs_le (p : List ℚ) (M x : ℚ) (hx : |x| ≤ M) :
    |polyEval p x| ≤ polyBound p M := by
  have hM : 0 ≤ M := le_trans (abs_nonneg x) hx
  induction p with
  | nil => simp [polyEval, polyBound]
  | cons c cs ih =>
    simp only [polyEval, polyBound]
    calc |c + x * polyEval cs x| ≤ |c| + |x * polyEval cs x| := abs_add _ _
      _ = |c| + |x| * |polyEval cs x| := by rw [abs_mul]
      _ ≤ |c| + M * polyBound cs M := by
          have h1 : |x| * |polyEval cs x| ≤ M * polyBound cs M :=
            mul_le_mul hx ih (abs_nonneg _) hM
          linarith

theorem polyLip_nonneg (p : List ℚ) (M : ℚ) (hM : 0 ≤ M) : 0 ≤ polyLip p M := by
  induction p with
  | nil => simp [polyLip]
  | cons c cs ih =>
    simp only [polyLip]
    have h1 := polyBound_nonneg cs M hM
    have h2 := mul_nonneg hM ih
    linarith

theorem polyEval_lipschitz (p : List ℚ) (M x y : ℚ) (hx : |x| ≤ M) (hy : |y| ≤ M) :
    |polyEval p x - polyEval p y| ≤ polyLip p M * |x - y| := by
  induction p with
  | nil => simp [polyEval, polyLip]
  | cons c cs ih =>
    simp only [polyEval, polyLip]
    have key : c + x * polyEval cs x - (c + y * polyEval cs y)
        = (x - y) * polyEval cs x + y * (polyEval cs x - polyEval cs y) := by ring
    rw [key]
    calc |(x - y) * polyEval cs x + y * (polyEval cs x - polyEval cs y)|
        ≤ |(x - y) * polyEval cs x| + |y * (polyEval cs x - polyEval cs y)| := abs_add _ _
      _ = |x - y| * |polyEval cs x| + |y| * |polyEval cs x - polyEval cs y| := by
          rw [abs_mul, abs_mul]
      _ ≤ |x - y| * polyBound cs M + M * (polyLip cs M * |x - y|) := by
          have h1 : |x - y| * |polyEval cs x| ≤ |x - y| * polyBound cs M :=
            mul_le_mul_of_nonneg_left (polyEval_abs_le cs M x hx) (abs_nonneg _)
          have h2 : |y| * |polyEval cs x - polyEval cs y| ≤ M * (polyLip cs M * |x - y|) :=
            mul_le_mul hy ih (abs_nonneg _) (le_trans (abs_nonneg x) hx)
          linarith
      _ = (polyBound cs M + M * polyLip cs M) * |x - y| := by ring

theorem bisect_spec (f : ℚ → ℚ) :
    ∀ (k : ℕ) (a b : ℚ), a ≤ b → f a * f b ≤ 0 →
      ∃ a2 b2, a ≤ a2 ∧ a2 ≤ b2 ∧ b2 ≤ b ∧ b2 - a2 = (b - a) / 2 ^ k ∧
        f a2 * f b2 ≤ 0 ∧ bisect f k a b = (a2 + b2) / 2
  | 0, a, b, hab, hsign => ⟨a, b, le_refl a, hab, le_refl b, by simp, hsign, rfl⟩
  | k + 1, a, b, hab, hsign => by
      have h2k : (0 : ℚ) < 2 ^ k := by positivity
      simp only [bisect]
      have hac : a ≤ (a + b) / 2 := by linarith
      have hcb : (a + b) / 2 ≤ b := by linarith
      by_cases hfc : f a * f ((a + b) / 2) ≤ 0
      · rw [if_pos hfc]
        obtain ⟨a2, b2, h1, h2, h3, h4, h5, h6⟩ := bisect_spec f k a ((a + b) / 2) hac hfc
        refine ⟨a2, b2, h1, h2, le_trans h3 hcb, ?_, h5, h6⟩
        rw [h4, pow_succ]
        field_simp
        ring
      · rw [if_neg hfc]
        push_neg at hfc
        have hcb2 : f ((a + b) / 2) * f b ≤ 0 := by
          rcases lt_trichotomy (f a) 0 with hneg | hzero | hpos
          · have hfc2 : f ((a + b) / 2) < 0 := by nlinarith
            have hfb : 0 ≤ f b := by nlinarith
            exact mul_nonpos_iff.mpr (Or.inr ⟨le_of_lt hfc2, hfb⟩)
          · rw [hzero] at hfc
            simp at hfc
          · have hfc2 : 0 < f ((a + b) / 2) := by nlinarith
            have hfb : f b ≤ 0 := by nlinarith
            exact mul_nonpos_iff.mpr (Or.inl ⟨le_of_lt hfc2, hfb⟩)
        obtain ⟨a2, b2, h1, h2, h3, h4, h5, h6⟩ := bisect_spec f k ((a + b) / 2) b hcb hcb2
        refine ⟨a2, b2, le_trans hac h1, h2, h3, ?_, h5, h6⟩
        rw [h4, pow_succ]
        field_simp
        ring

theorem bisect_close (f : ℚ → ℚ) (L : ℚ) (k : ℕ) (a b : ℚ) (hab : a ≤ b)
    (hsign : f a * f b ≤ 0) (hL : 0 ≤ L)
    (hlip : ∀ x y, a ≤ x → x ≤ b → a ≤ y → y ≤ b → |f x - f y| ≤ L * |x - y|) :
    a ≤ bisect f k a b ∧ bisect f k a b ≤ b ∧ |f (bisect f k a b)| ≤ L * (b - a) / 2 ^ k := by
  obtain ⟨a2, b2, h1, h2, h3, h4, h5, h6⟩ := bisect_spec f k a b hab hsign
  have ha2m : a2 ≤ bisect f k a b := by rw [h6]; linarith
  have hmb2 : bisect f k a b ≤ b2 := by rw [h6]; linarith
  have ham : a ≤ bisect f k a b := le_trans h1 ha2m
  have hmb : bisect f k a b ≤ b := le_trans hmb2 h3
  refine ⟨ham, hmb, ?_⟩
  have hda : |bisect f k a b - a2| = (b2 - a2) / 2 := by
    rw [h6, abs_of_nonneg (by linarith)]
    ring
  have hdb : |bisect f k a b - b2| = (b2 - a2) / 2 := by
    rw [h6, abs_of_nonpos (by linarith)]
    ring
  have hla := hlip (bisect f k a b) a2 ham hmb h1 (le_trans h2 h3)
  have hlb := hlip (bisect f k a b) b2 ham hmb (le_trans h1 h2) h3
  rw [hda] at hla
  rw [hdb] at hlb
  have habs1 := abs_le.1 hla
  have habs2 := abs_le.1 hlb
  have hbridge : L * ((b2 - a2) / 2) = L * (b2 - a2) / 2 := by ring
  have hW : 0 ≤ b2 - a2 := by linarith
  have hLW : 0 ≤ L * (b2 - a2) := mul_nonneg hL hW
  have heq : L * (b2 - a2) = L * (b - a) / 2 ^ k := by
    rw [h4]
    ring
  have hfin : |f (bisect f k a b)| ≤ L * (b2 - a2) / 2 := by
    rcases mul_nonpos_iff.1 h5 with ⟨hfa2, hfb2⟩ | ⟨hfa2, hfb2⟩
    · rw [abs_le]
      constructor
      · linarith [habs2.1]
      · linarith [habs1.2]
    · rw [abs_le]
      constructor
      · linarith [habs1.1]
      · linarith [habs2.2]
  linarith

theorem brentq_ok (N : ℕ) (f : ℚ → ℚ) (a b L : ℚ) (hab : a ≤ b) (hsign : f a * f b ≤ 0)
    (hL : 0 ≤ L)
    (hlip : ∀ x y, a ≤ x → x ≤ b → a ≤ y → y ≤ b → |f x - f y| ≤ L * |x - y|) :
    ∃ n, brentq N f a b = .ok n ∧ a ≤ n ∧ n ≤ b ∧ |f n| ≤ L * (b - a) / 2 ^ N := by
  have hrhs : 0 ≤ L * (b - a) / 2 ^ N :=
    div_nonneg (mul_nonneg hL (by linarith)) (by positivity)
  unfold brentq
  rw [if_neg (not_lt.mpr hsign)]
  by_cases hfa : f a = 0
  · rw [if_pos hfa]
    refine ⟨a, rfl, le_refl a, hab, ?_⟩
    rw [hfa]
    simpa using hrhs
  · rw [if_neg hfa]
    by_cases hfb : f b = 0
    · rw [if_pos hfb]
      refine ⟨b, rfl, hab, le_refl b, ?_⟩
      rw [hfb]
      simpa using hrhs
    · rw [if_neg hfb]
      obtain ⟨h1, h2, h3⟩ := bisect_close f L N a b hab hsign hL hlip
      exact ⟨_, rfl, h1, h2, h3⟩

theorem brentq_error (N : ℕ) (f : ℚ → ℚ) (a b : ℚ) (h : 0 < f a * f b) :
    brentq N f a b = .error .valueError := by
  unfold brentq
  rw [if_pos h]

/-! ### The per-pixel inversion loop -/

theorem densLoop_spec (N : ℕ) (ru : Option Grid) (data : Grid) (xb xe mn mx : ℚ)
    (popt : List ℚ) (h w : ℕ) (idxs : List (ℕ × ℕ)) :
    ∀ acc : Grid × Grid × Grid,
      rectGrid acc.1 h w → rectGrid acc.2.1 h w → rectGrid acc.2.2 h w →
      (∀ p ∈ idxs, p.1 < h ∧ p.2 < w) →
      (∀ p ∈ idxs, ∃ r t, getCell data p.1 p.2 = some r ∧
          processPixel N ru xb xe mn mx popt p.1 p.2 r = .ok t) →
      ∃ out, densLoop N ru data xb xe mn mx popt idxs acc = .ok out ∧
        rectGrid out.1 h w ∧ rectGrid out.2.1 h w ∧ rectGrid out.2.2 h w ∧
        (∀ y x, (y, x) ∉ idxs →
          getCell out.1 y x = getCell acc.1 y x ∧
          getCell out.2.1 y x = getCell acc.2.1 y x ∧
          getCell out.2.2 y x = getCell acc.2.2 y x) ∧
        (∀ y x r t, (y, x) ∈ idxs → getCell data y x = some r →
          processPixel N ru xb xe mn mx popt y x r = .ok t →
          getCell out.1 y x = some t.1 ∧ getCell out.2.1 y x = t.2.2 ∧
          getCell out.2.2 y x = t.2.1) := by
  induction idxs with
  | nil =>
      intro acc ha1 ha2 ha3 _ _
      refine ⟨acc, rfl, ha1, ha2, ha3, fun _ _ _ => ⟨rfl, rfl, rfl⟩, ?_⟩
      intro y x r t hmem
      simp at hmem
  | cons q rest ih =>
      intro acc ha1 ha2 ha3 hb hok
      obtain ⟨r0, t0, hr0, ht0⟩ := hok q (List.mem_cons_self q rest)
      obtain ⟨hqh, hqw⟩ := hb q (List.mem_cons_self q rest)
      have hy1 : q.1 < acc.1.length := by rw [ha1.1]; exact hqh
      have hx1 : q.2 < (acc.1.getD q.1 []).length := by rw [ha1.2 q.1 hqh]; exact hqw
      have hy2 : q.1 < acc.2.1.length := by rw [ha2.1]; exact hqh
      have hx2 : q.2 < (acc.2.1.getD q.1 []).length := by rw [ha2.2 q.1 hqh]; exact hqw
      have hy3 : q.1 < acc.2.2.length := by rw [ha3.1]; exact hqh
      have hx3 : q.2 < (acc.2.2.getD q.1 []).length := by rw [ha3.2 q.1 hqh]; exact hqw
      obtain ⟨out, hloop, ho1, ho2, ho3, hrest2, hmem2⟩ :=
        ih (setCell acc.1 q.1 q.2 (some t0.1),
            setCell acc.2.1 q.1 q.2 t0.2.2,
            setCell acc.2.2 q.1 q.2 t0.2.1)
          (rect_setCell ha1 _ _ _) (rect_setCell ha2 _ _ _) (rect_setCell ha3 _ _ _)
          (fun p hp => hb p (List.mem_cons_of_mem _ hp))
          (fun p hp => hok p (List.mem_cons_of_mem _ hp))
      refine ⟨out, ?_, ho1, ho2, ho3, ?_, ?_⟩
      · simp only [densLoop, hr0, ht0]
        exact hloop
      · intro y x hnot
        have hrest : (y, x) ∉ rest := fun hm => hnot (List.mem_cons_of_mem _ hm)
        have hne : (y, x) ≠ q := fun he => hnot (he ▸ List.mem_cons_self q rest)
        obtain ⟨k1, k2, k3⟩ := hrest2 y x hrest
        rw [k1, k2, k3]
        exact ⟨getCell_setCell_ne _ _ _ _ _ _ hne, getCell_setCell_ne _ _ _ _ _ _ hne,
          getCell_setCell_ne _ _ _ _ _ _ hne⟩
      · intro y x r t hmem hr ht
        rcases List.mem_cons.1 hmem with heq | hmemr
        · by_cases hyx : (y, x) ∈ rest
          · exact hmem2 y x r t hyx hr ht
          · obtain ⟨k1, k2, k3⟩ := hrest2 y x hyx
            rw [k1, k2, k3]
            have hy : y = q.1 := congrArg Prod.fst heq
            have hx : x = q.2 := congrArg Prod.snd heq
            subst hy
            subst hx
            have hrr : r = r0 := by
              have h12 : some r = some r0 := by rw [← hr, hr0]
              exact Option.some.inj h12
            subst hrr
            have htt : t = t0 := by
              have h12 : Except.ok (ε := PyErr) t = Except.ok t0 := by rw [← ht, ht0]
              exact Except.ok.inj h12
            subst htt
            exact ⟨getCell_setCell_self _ _ _ _ hy1 hx1,
              getCell_setCell_self _ _ _ _ hy2 hx2,
              getCell_setCell_self _ _ _ _ hy3 hx3⟩
        · exact hmem2 y x r t hmemr hr ht

theorem densLoop_ok_mem (N : ℕ) (ru : Option Grid) (data : Grid) (xb xe mn mx : ℚ)
    (popt : List ℚ) (idxs : List (ℕ × ℕ)) :
    ∀ (acc out : Grid × Grid × Grid),
      densLoop N ru data xb xe mn mx popt idxs acc = .ok out →
      ∀ p ∈ idxs, ∃ r, getCell data p.1 p.2 = some r ∧
        ∃ t, processPixel N ru xb xe mn mx popt p.1 p.2 r = .ok t := by
  induction idxs with
  | nil =>
      intro acc out _ p hp
      simp at hp
  | cons q rest ih =>
      intro acc out hloop p hp
      cases hr : getCell data q.1 q.2 with
      | none =>
          simp only [densLoop, hr] at hloop
          exact absurd hloop (by simp)
      | some r0 =>
          cases hpp : processPixel N ru xb xe mn mx popt q.1 q.2 r0 with
          | error e =>
              simp only [densLoop, hr, hpp] at hloop
              exact absurd hloop (by simp)
          | ok t0 =>
              simp only [densLoop, hr, hpp] at hloop
              rcases List.mem_cons.1 hp with heq | hmemr
              · subst heq
                exact ⟨r0, hr, t0, hpp⟩
              · exact ih _ out hloop p hmemr

theorem densLoop_err (N : ℕ) (ru : Option Grid) (data : Grid) (xb xe mn mx : ℚ)
    (popt : List ℚ) (idxs : List (ℕ × ℕ)) (p : ℕ × ℕ) (hp : p ∈ idxs) (r : ℚ)
    (hr : getCell data p.1 p.2 = some r)
    (hfail : ∀ t, processPixel N ru xb xe mn mx popt p.1 p.2 r ≠ .ok t)
    (acc : Grid × Grid × Grid) :
    ∃ e, densLoop N ru data xb xe mn mx popt idxs acc = .error e := by
  cases hres : densLoop N ru data xb xe mn mx popt idxs acc with
  | error e => exact ⟨e, rfl⟩
  | ok out =>
      obtain ⟨r2, hr2, t, ht⟩ := densLoop_ok_mem N ru data xb xe mn mx popt idxs acc out hres p hp
      rw [hr] at hr2
      have : r2 = r := (Option.some.injEq _ _ ▸ hr2).symm ▸ rfl
      subst this
      exact absurd ht (hfail t)

theorem calculate_density_spec (N : ℕ) (ru : Option Grid) (data : Grid)
    (xb xe mn mx : ℚ) (popt : List ℚ) (h w : ℕ)
    (hrect : rectGrid data h w) (hne : data ≠ [])
    (hall : ∀ p ∈ nonNanIndices data, ∃ r t, getCell data p.1 p.2 = some r ∧
        processPixel N ru xb xe mn mx popt p.1 p.2 r = .ok t) :
    ∃ vals lows ups, calculate_density N ru data xb xe mn mx popt = .ok (vals, lows, ups) ∧
      (∀ y x, getCell data y x = none →
        getCell vals y x = none ∧ getCell lows y x = none ∧ getCell ups y x = none) ∧
      (∀ y x r t, getCell data y x = some r →
        processPixel N ru xb xe mn mx popt y x r = .ok t →
        getCell vals y x = some t.1 ∧ getCell lows y x = t.2.2 ∧ getCell ups y x = t.2.1) := by
  cases data with
  | nil => exact absurd rfl hne
  | cons row0 rest =>
      have hh : (row0 :: rest).length = h := hrect.1
      have hw : row0.length = w := by
        have h0 : (0 : ℕ) < h := by
          rw [← hh]
          simp
        have h1 := hrect.2 0 h0
        simpa using h1
      have hnan : nanGrid (row0 :: rest).length row0.length = nanGrid h w := by
        rw [hh, hw]
      obtain ⟨out, hloop, _, _, _, hout0, houtm⟩ :=
        densLoop_spec N ru (row0 :: rest) xb xe mn mx popt h w (nonNanIndices (row0 :: rest))
          (nanGrid (row0 :: rest).length row0.length,
           nanGrid (row0 :: rest).length row0.length,
           nanGrid (row0 :: rest).length row0.length)
          (by rw [hnan]; exact rect_nanGrid h w)
          (by rw [hnan]; exact rect_nanGrid h w)
          (by rw [hnan]; exact rect_nanGrid h w)
          (fun p hp => nonNan_lt_of_rect hrect hp)
          hall
      refine ⟨out.1, out.2.1, out.2.2, ?_, ?_, ?_⟩
      · simp only [calculate_density, hloop]
      · intro y x hnone
        have hnot : (y, x) ∉ nonNanIndices (row0 :: rest) := by
          intro hmem
          have := mem_nonNanIndices.1 hmem
          rw [hnone] at this
          simp at this
        obtain ⟨k1, k2, k3⟩ := hout0 y x hnot
        rw [k1, k2, k3]
        exact ⟨getCell_nanGrid _ _ _ _, getCell_nanGrid _ _ _ _, getCell_nanGrid _ _ _ _⟩
      · intro y x r t hr ht
        have hmem : (y, x) ∈ nonNanIndices (row0 :: rest) := by
          apply mem_nonNanIndices.2
          rw [hr]
          rfl
        exact houtm y x r t hmem hr ht

theorem calculate_density_err (N : ℕ) (ru : Option Grid) (data : Grid)
    (xb xe mn mx : ℚ) (popt : List ℚ) (y x : ℕ) (r : ℚ)
    (hr : getCell data y x = some r)
    (hfail : ∀ t, processPixel N ru xb xe mn mx popt y x r ≠ .ok t) :
    ∃ e, calculate_density N ru data xb xe mn mx popt = .error e := by
  cases data with
  | nil => exact ⟨.indexError, rfl⟩
  | cons row0 rest =>
      have hmem : (y, x) ∈ nonNanIndices (row0 :: rest) := by
        apply mem_nonNanIndices.2
        rw [hr]
        rfl
      obtain ⟨e, hloop⟩ := densLoop_err N ru (row0 :: rest) xb xe mn mx popt
        (nonNanIndices (row0 :: rest)) (y, x) hmem r hr hfail
        (nanGrid (row0 :: rest).length row0.length,
         nanGrid (row0 :: rest).length row0.length,
         nanGrid (row0 :: rest).length row0.length)
      refine ⟨e, ?_⟩
      simp only [calculate_density, hloop]

theorem processPixel_nosign_err (N : ℕ) (ru : Option Grid) (xb xe mn mx : ℚ)
    (popt : List ℚ) (y x : ℕ) (r : ℚ)
    (h : 0 < polyMinY popt xb r * polyMinY popt xe r) :
    ∀ t, processPixel N ru xb xe mn mx popt y x r ≠ .ok t := by
  intro t hok
  have hbr : brentq N (fun s => polyMinY popt s r) xb xe = .error .valueError :=
    brentq_error _ _ _ _ (by simpa using h)
  simp only [processPixel, hbr] at hok
  exact Except.noConfusion hok

theorem processPixel_strict_ok (N : ℕ) (xb xe mn mx : ℚ) (popt : List ℚ) (y x : ℕ) (r : ℚ)
    (hab : xb ≤ xe) (hmin : polyEval popt xb = mn) (hmax : polyEval popt xe = mx)
    (h1 : mn < r) (h2 : r < mx) :
    ∃ n, processPixel N none xb xe mn mx popt y x r = .ok (n, none, none) ∧
      xb ≤ n ∧ n ≤ xe ∧
      |polyEval popt n - r| ≤ polyLip popt (polyM xb xe) * (xe - xb) / 2 ^ N := by
  have hM : 0 ≤ polyM xb xe := le_trans (abs_nonneg xb) (abs_le_polyM (le_refl xb) hab)
  have hL : 0 ≤ polyLip popt (polyM xb xe) := polyLip_nonneg _ _ hM
  have hlip : ∀ u v, xb ≤ u → u ≤ xe → xb ≤ v → v ≤ xe →
      |(fun s => polyMinY popt s r) u - (fun s => polyMinY popt s r) v|
        ≤ polyLip popt (polyM xb xe) * |u - v| := by
    intro u v hu1 hu2 hv1 hv2
    show |polyMinY popt u r - polyMinY popt v r| ≤ _
    have hdiff : polyMinY popt u r - polyMinY popt v r = polyEval popt u - polyEval popt v := by
      unfold polyMinY
      ring
    rw [hdiff]
    exact polyEval_lipschitz popt (polyM xb xe) u v (abs_le_polyM hu1 hu2) (abs_le_polyM hv1 hv2)
  have hsign : (fun s => polyMinY popt s r) xb * (fun s => polyMinY popt s r) xe ≤ 0 := by
    show polyMinY popt xb r * polyMinY popt xe r ≤ 0
    apply mul_nonpos_iff.mpr
    apply Or.inr
    constructor
    · unfold polyMinY
      rw [hmin]
      linarith
    · unfold polyMinY
      rw [hmax]
      linarith
  obtain ⟨n, hbr, hn1, hn2, hn3⟩ := brentq_ok N (fun s => polyMinY popt s r) xb xe
    (polyLip popt (polyM xb xe)) hab hsign hL hlip
  refine ⟨n, ?_, hn1, hn2, ?_⟩
  · simp only [processPixel, hbr]
  · simpa [polyMinY] using hn3

theorem processPixel_unc_char (N : ℕ) (unc : Grid) (xb xe mn mx : ℚ) (popt : List ℚ)
    (y x : ℕ) (r : ℚ) (t : ℚ × Cell × Cell) (ucell : Cell)
    (hok : processPixel N (some unc) xb xe mn mx popt y x r = .ok t)
    (hu : getCellE unc y x = .ok ucell) :
    (t.2.1 ≠ none ↔ ∃ u, ucell = some u ∧ up_err r u < mx) ∧
    (t.2.2 ≠ none ↔ ∃ u, ucell = some u ∧ mn < low_err r u) := by
  cases hbr : brentq N (fun s => polyMinY popt s r) xb xe with
  | error e =>
      simp only [processPixel, hbr] at hok
      exact Except.noConfusion hok
  | ok n =>
      simp only [processPixel, hbr, hu] at hok
      cases ucell with
      | none =>
          simp only [] at hok
          obtain rfl := Except.ok.inj hok
          constructor
          · simp
          · simp
      | some u =>
          by_cases hup : up_err r u < mx
          · cases hbru : brentq N (fun s => polyMinY popt s (up_err r u)) xb xe with
            | error e =>
                simp only [hup, if_true, hbru] at hok
                exact Except.noConfusion hok
            | ok m =>
                by_cases hlow : mn < low_err r u
                · cases hblow : brentq N (fun s => polyMinY popt s (low_err r u)) xb xe with
                  | error e =>
                      simp only [hup, if_true, hbru, hlow, hblow] at hok
                      exact Except.noConfusion hok
                  | ok m2 =>
                      simp only [hup, if_true, hbru, hlow, hblow] at hok
                      obtain rfl := Except.ok.inj hok
                      constructor
                      · simp only []
                        constructor
                        · intro _
                          exact ⟨u, rfl, hup⟩
                        · intro _
                          simp
                      · simp only []
                        constructor
                        · intro _
                          exact ⟨u, rfl, hlow⟩
                        · intro _
                          simp
                · simp only [hup, if_true, hbru, hlow, if_false] at hok
                  obtain rfl := Except.ok.inj hok
                  constructor
                  · simp only []
                    constructor
                    · intro _
                      exact ⟨u, rfl, hup⟩
                    · intro _
                      simp
                  · simp only []
                    constructor
                    · intro hne
                      simp at hne
                    · rintro ⟨u2, hu2, hc⟩
                      obtain rfl := Option.some.inj hu2
                      exact absurd hc hlow
          · by_cases hlow : mn < low_err r u
            · cases hblow : brentq N (fun s => polyMinY popt s (low_err r u)) xb xe with
              | error e =>
                  simp only [hup, if_false, hlow, hblow] at hok
                  exact Except.noConfusion hok
              | ok m2 =>
                  simp only [hup, if_false, hlow, hblow] at hok
                  obtain rfl := Except.ok.inj hok
                  constructor
                  · simp only []
                    constructor
                    · intro hne
                      simp at hne
                    · rintro ⟨u2, hu2, hc⟩
                      obtain rfl := Option.some.inj hu2
                      exact absurd hc hup
                  · simp only []
                    constructor
                    · intro _
                      exact ⟨u, rfl, hlow⟩
                    · intro _
                      simp
            · simp only [hup, if_false, hlow] at hok
              obtain rfl := Except.ok.inj hok
              constructor
              · simp only []
                constructor
                · intro hne
                  simp at hne
                · rintro ⟨u2, hu2, hc⟩
                  obtain rfl := Option.some.inj hu2
                  exact absurd hc hup
              · simp only []
                constructor
                · intro hne
                  simp at hne
                · rintro ⟨u2, hu2, hc⟩
                  obtain rfl := Option.some.inj hu2
                  exact absurd hc hlow

/-! ### Claims C1, C2, C3 -/

/-- Claim C1: for a fitted polynomial curve whose computed extrema `(min_rat, max_rat)`
are attained at the bracket endpoints `[n_begin, n_end]`, and a ratio map whose every
non-NaN pixel value lies strictly between `min_rat` and `max_rat`, the per-pixel
inversion `__calculate_density` succeeds and the recovered density `n` at every such
pixel lies in the bracket and satisfies `|polynomial(n) - r| < tolerance`, where the
tolerance bounds the root finder's working precision via the curve's Lipschitz constant
on the bracket. -/
theorem c1_inversion_root_correct (N : ℕ) (data : Grid)
    (x_beg x_end min_rat max_rat tol : ℚ) (popt : List ℚ) (h w : ℕ)
    (hrect : rectGrid data h w) (hne : data ≠ [])
    (hab : x_beg ≤ x_end)
    (hmin : polyEval popt x_beg = min_rat) (hmax : polyEval popt x_end = max_rat)
    (hstrict : ∀ y x r, getCell data y x = some r → min_rat < r ∧ r < max_rat)
    (htol : polyLip popt (polyM x_beg x_end) * (x_end - x_beg) / 2 ^ N < tol) :
    ∃ vals lows ups,
      calculate_density N none data x_beg x_end min_rat max_rat popt = .ok (vals, lows, ups) ∧
      ∀ y x r, getCell data y x = some r →
        ∃ n, getCell vals y x = some n ∧ x_beg ≤ n ∧ n ≤ x_end ∧
          |polyEval popt n - r| < tol := by
  have hall : ∀ p ∈ nonNanIndices data, ∃ r t, getCell data p.1 p.2 = some r ∧
      processPixel N none x_beg x_end min_rat max_rat popt p.1 p.2 r = .ok t := by
    intro p hp
    have hsome := mem_nonNanIndices.1 hp
    obtain ⟨r, hr⟩ := Option.isSome_iff_exists.1 hsome
    obtain ⟨hs1, hs2⟩ := hstrict p.1 p.2 r hr
    obtain ⟨n, hokp, _, _, _⟩ :=
      processPixel_strict_ok N x_beg x_end min_rat max_rat popt p.1 p.2 r hab hmin hmax hs1 hs2
    exact ⟨r, (n, none, none), hr, hokp⟩
  obtain ⟨vals, lows, ups, hcd, _, hcomp⟩ :=
    calculate_density_spec N none data x_beg x_end min_rat max_rat popt h w hrect hne hall
  refine ⟨vals, lows, ups, hcd, ?_⟩
  intro y x r hr
  obtain ⟨hs1, hs2⟩ := hstrict y x r hr
  obtain ⟨n, hokp, hn1, hn2, hn3⟩ :=
    processPixel_strict_ok N x_beg x_end min_rat max_rat popt y x r hab hmin hmax hs1 hs2
  obtain ⟨k1, _, _⟩ := hcomp y x r (n, none, none) hr hokp
  exact ⟨n, k1, hn1, hn2, lt_of_le_of_lt hn3 htol⟩

/-- Claim C1 witness: a 1-pixel ratio map with value `1/2`, the identity curve on the
bracket `[0, 1]` with extrema `(0, 1)`, and tolerance `1`. -/
theorem c1_witness :
    (rectGrid [[some (1/2)]] 1 1 ∧
      polyLip [0, 1] (polyM 0 1) * (1 - 0) / 2 ^ 1 < 1) ∧
    (∃ vals lows ups,
      calculate_density 1 none [[some (1/2)]] 0 1 0 1 [0, 1] = .ok (vals, lows, ups) ∧
      ∀ y x r, getCell [[some (1/2)]] y x = some r →
        ∃ n, getCell vals y x = some n ∧ 0 ≤ n ∧ n ≤ 1 ∧
          |polyEval [0, 1] n - r| < 1) := by
  refine ⟨⟨by with_unfolding_all decide, by with_unfolding_all decide⟩, ?_⟩
  refine c1_inversion_root_correct 1 [[some (1/2)]] 0 1 0 1 1 [0, 1] 1 1
    (by with_unfolding_all decide) (by with_unfolding_all decide) (by with_unfolding_all decide) (by with_unfolding_all decide) (by with_unfolding_all decide) ?_ (by with_unfolding_all decide)
  intro y x r hr
  cases y with
  | zero =>
      cases x with
      | zero =>
          have hval : (some (1/2 : ℚ) : Cell) = some r := hr
          have : r = 1/2 := (Option.some.inj hval).symm
          subst this
          constructor
          · norm_num
          · norm_num
      | succ x2 =>
          exfalso
          have hnone : getCell [[some (1/2)]] 0 (x2 + 1) = none := rfl
          rw [hnone] at hr
          exact Option.noConfusion hr
  | succ y2 =>
      exfalso
      have hnone : getCell [[some (1/2)]] (y2 + 1) x = none := by
        unfold getCell
        have : ([[some (1/2)]] : Grid).getD (y2 + 1) [] = [] := rfl
        rw [this]
        rfl
      rw [hnone] at hr
      exact Option.noConfusion hr

/-- Claim C2 counterexample: a two-pixel ratio map `[[10, 1/2]]` inverted against the
identity curve on `[0, 1]`.  Pixel `(0,0)` holds `10`, outside the bracket, so the root
finder finds no sign change; the claim says the failure is caught, the pixel is left
NaN, and the remaining pixel (`1/2`, invertible) is processed — but `__calculate_density`
has no exception handler, so the whole call aborts with the `ValueError` and no density
map is produced at all. -/
theorem c2_counterexample :
    calculate_density 0 none [[some 10, some (1/2)]] 0 1 0 1 [0, 1]
      = .error .valueError := by
  with_unfolding_all decide

/-- Claim C2 (amended): when the bracketed root-finder fails for some scanned pixel
because there is no sign change at the bracket endpoints, the failure is *not* caught:
the exception propagates out of `__calculate_density`, aborting the whole per-pixel
inversion, and no result grids are returned (pixels are left NaN only by the prior
range cut and the NaN mask, not by a caught root-finder failure). -/
theorem c2_root_failure_aborts (N : ℕ) (ru : Option Grid) (data : Grid)
    (x_beg x_end min_rat max_rat : ℚ) (popt : List ℚ) (y x : ℕ) (r : ℚ)
    (hr : getCell data y x = some r)
    (hnosign : 0 < polyMinY popt x_beg r * polyMinY popt x_end r) :
    ∃ e, calculate_density N ru data x_beg x_end min_rat max_rat popt = .error e :=
  calculate_density_err N ru data x_beg x_end min_rat max_rat popt y x r hr
    (processPixel_nosign_err N ru x_beg x_end min_rat max_rat popt y x r hnosign)

/-- Claim C2 witness: a 1-pixel map with value `5` against the identity curve on
`[0, 1]`: no sign change, and the call indeed returns an error. -/
theorem c2_witness :
    (getCell [[some 5]] 0 0 = some 5 ∧
      0 < polyMinY [0, 1] 0 5 * polyMinY [0, 1] 1 5) ∧
    (∃ e, calculate_density 0 none [[some 5]] 0 1 0 1 [0, 1] = .error e) :=
  ⟨⟨by with_unfolding_all decide, by with_unfolding_all decide⟩,
    c2_root_failure_aborts 0 none [[some 5]] 0 1 0 1 [0, 1] 0 0 5 (by with_unfolding_all decide) (by with_unfolding_all decide)⟩

/-- Claim C3 counterexample: a pixel with ratio `0` (equal to `min_rat`) and uncertainty
`0` against the identity curve on `[0, 1]`: the perturbed value `0 + 0 = 0` is *not*
strictly inside `(min_rat, max_rat) = (0, 1)`, yet the code attempts the `up` root-find
(its guard only checks `up_err < max_rat`) and records `vals_err_up = 0` instead of
leaving that side NaN; the claim that perturbed inversions run exactly when the
perturbed value is strictly inside the open interval is therefore false. -/
theorem c3_counterexample :
    calculate_density 0 (some [[some 0]]) [[some 0]] 0 1 0 1 [0, 1]
      = .ok ([[some 0]], [[none]], [[some 0]]) ∧
    ¬ ((0 : ℚ) < up_err 0 0) := by
  with_unfolding_all decide

/-- Claim C3 (amended): on a successful run of `__calculate_density` with an uncertainty
grid, for every non-NaN pixel the `up`-side bound is present iff the uncertainty cell is
a number and `ratio + unc < max_rat` (the lower boundary is *not* checked on this side),
and the `low`-side bound is present iff the uncertainty cell is a number and
`ratio − unc > min_rat` (the upper boundary is *not* checked on this side); a NaN or
out-of-condition perturbation leaves that side NaN with no root-find recorded. -/
theorem c3_one_sided_guard (N : ℕ) (unc data : Grid) (x_beg x_end min_rat max_rat : ℚ)
    (popt : List ℚ) (h w : ℕ) (vals lows ups : Grid)
    (hrect : rectGrid data h w)
    (hok : calculate_density N (some unc) data x_beg x_end min_rat max_rat popt
      = .ok (vals, lows, ups)) :
    ∀ y x r ucell, getCell data y x = some r → getCellE unc y x = .ok ucell →
      ((getCell ups y x ≠ none) ↔ ∃ u, ucell = some u ∧ up_err r u < max_rat) ∧
      ((getCell lows y x ≠ none) ↔ ∃ u, ucell = some u ∧ min_rat < low_err r u) := by
  cases data with
  | nil =>
      simp only [calculate_density] at hok
      exact Except.noConfusion hok
  | cons row0 rest =>
      intro y x r ucell hr hu
      have hh : (row0 :: rest).length = h := hrect.1
      have hw2 : row0.length = w := by
        have h0 : (0 : ℕ) < h := by
          rw [← hh]
          simp
        simpa using hrect.2 0 h0
      have hnan : nanGrid (row0 :: rest).length row0.length = nanGrid h w := by
        rw [hh, hw2]
      cases hloop : densLoop N (some unc) (row0 :: rest) x_beg x_end min_rat max_rat popt
          (nonNanIndices (row0 :: rest))
          (nanGrid (row0 :: rest).length row0.length,
           nanGrid (row0 :: rest).length row0.length,
           nanGrid (row0 :: rest).length row0.length) with
      | error e =>
          simp only [calculate_density, hloop] at hok
          exact Except.noConfusion hok
      | ok out =>
          simp only [calculate_density, hloop] at hok
          have heq := Except.ok.inj hok
          have h2 := congrArg Prod.snd heq
          have hlow : out.2.1 = lows := congrArg Prod.fst h2
          have hup : out.2.2 = ups := congrArg Prod.snd h2
          have hall := densLoop_ok_mem N (some unc) (row0 :: rest) x_beg x_end min_rat
            max_rat popt (nonNanIndices (row0 :: rest)) _ out hloop
          have hall2 : ∀ p ∈ nonNanIndices (row0 :: rest), ∃ r2 t,
              getCell (row0 :: rest) p.1 p.2 = some r2 ∧
              processPixel N (some unc) x_beg x_end min_rat max_rat popt p.1 p.2 r2
                = .ok t := by
            intro p hp
            obtain ⟨r2, hr2, t, ht⟩ := hall p hp
            exact ⟨r2, t, hr2, ht⟩
          obtain ⟨out2, hloop2, _, _, _, _, hmem2⟩ :=
            densLoop_spec N (some unc) (row0 :: rest) x_beg x_end min_rat max_rat popt h w
              (nonNanIndices (row0 :: rest))
              (nanGrid (row0 :: rest).length row0.length,
               nanGrid (row0 :: rest).length row0.length,
               nanGrid (row0 :: rest).length row0.length)
              (by rw [hnan]; exact rect_nanGrid h w)
              (by rw [hnan]; exact rect_nanGrid h w)
              (by rw [hnan]; exact rect_nanGrid h w)
              (fun p hp => nonNan_lt_of_rect hrect hp)
              hall2
          have hout : out2 = out := by
            rw [hloop] at hloop2
            exact (Except.ok.inj hloop2).symm
          subst hout
          have hmem : (y, x) ∈ nonNanIndices (row0 :: rest) := by
            apply mem_nonNanIndices.2
            rw [hr]
            rfl
          obtain ⟨r2, hr2, t, ht⟩ := hall (y, x) hmem
          have hrr : r2 = r := by
            have h12 : some r2 = some r := by rw [← hr2, hr]
            exact Option.some.inj h12
          subst hrr
          obtain ⟨_, k2, k3⟩ := hmem2 y x r2 t hmem hr2 ht
          obtain ⟨c1, c2⟩ := processPixel_unc_char N unc x_beg x_end min_rat max_rat popt
            y x r2 t ucell ht hu
          constructor
          · rw [← hup, k3]
            exact c1
          · rw [← hlow, k2]
            exact c2

/-- Claim C3 witness: a 1-pixel run with ratio `1/2`, uncertainty `1/4`, identity curve
on `[0, 1]`: both perturbations lie inside and both bounds are produced. -/
theorem c3_witness :
    (calculate_density 0 (some [[some (1/4)]]) [[some (1/2)]] 0 1 0 1 [0, 1]
        = .ok ([[some (1/2)]], [[some (1/2)]], [[some (1/2)]])) ∧
    (∀ y x r ucell, getCell [[some (1/2)]] y x = some r →
        getCellE [[some (1/4)]] y x = .ok ucell →
        ((getCell [[some (1/2)]] y x ≠ none) ↔ ∃ u, ucell = some u ∧ up_err r u < 1) ∧
        ((getCell [[some (1/2)]] y x ≠ none) ↔ ∃ u, ucell = some u ∧ 0 < low_err r u)) :=
  ⟨by with_unfolding_all decide,
    c3_one_sided_guard 0 [[some (1/4)]] [[some (1/2)]] 0 1 0 1 [0, 1] 1 1
      [[some (1/2)]] [[some (1/2)]] [[some (1/2)]] (by decide)
      (by with_unfolding_all decide)⟩

/-! ### Mosaic assembly (C7) -/

theorem foldl_setCell_getCell (l : Grid) (idxs : List (ℕ × ℕ)) :
    ∀ g : Grid, (∀ p ∈ idxs, p.1 < g.length ∧ p.2 < (g.getD p.1 []).length) →
      ∀ y x, getCell (idxs.foldl (fun a p => setCell a p.1 p.2 (getCell l p.1 p.2)) g) y x
        = if (y, x) ∈ idxs then getCell l y x else getCell g y x := by
  induction idxs with
  | nil =>
      intro g _ y x
      simp
  | cons q rest ih =>
      obtain ⟨qy, qx⟩ := q
      intro g hb y x
      simp only [List.foldl_cons]
      have hq := hb (qy, qx) (List.mem_cons_self _ rest)
      have hb2 : ∀ p ∈ rest, p.1 < (setCell g qy qx (getCell l qy qx)).length ∧
          p.2 < ((setCell g qy qx (getCell l qy qx)).getD p.1 []).length := by
        intro p hp
        obtain ⟨k1, k2⟩ := hb p (List.mem_cons_of_mem _ hp)
        constructor
        · rw [length_setCell]
          exact k1
        · rw [rowlen_setCell]
          exact k2
      rw [ih _ hb2 y x]
      by_cases hmem : (y, x) ∈ rest
      · rw [if_pos hmem, if_pos (List.mem_cons_of_mem _ hmem)]
      · rw [if_neg hmem]
        by_cases heq : (y, x) = (qy, qx)
        · rw [if_pos (heq ▸ List.mem_cons_self _ rest)]
          have hy : y = qy := congrArg Prod.fst heq
          have hx : x = qx := congrArg Prod.snd heq
          subst hy
          subst hx
          exact getCell_setCell_self g y x _ hq.1 hq.2
        · have hnot : (y, x) ∉ (qy, qx) :: rest := by
            intro hm
            rcases List.mem_cons.1 hm with h1 | h2
            · exact heq h1
            · exact hmem h2
          rw [if_neg hnot]
          exact getCell_setCell_ne g qy qx _ y x heq

theorem foldl_setCell_rect (l : Grid) (idxs : List (ℕ × ℕ)) :
    ∀ (g : Grid) (h w : ℕ), rectGrid g h w →
      rectGrid (idxs.foldl (fun a p => setCell a p.1 p.2 (getCell l p.1 p.2)) g) h w := by
  induction idxs with
  | nil =>
      intro g h w hrect
      exact hrect
  | cons q rest ih =>
      intro g h w hrect
      simp only [List.foldl_cons]
      exact ih _ h w (rect_setCell hrect _ _ _)

theorem rect_rowlen_all {g1 g2 : Grid} {h w : ℕ}
    (h1 : rectGrid g1 h w) (h2 : rectGrid g2 h w) :
    ∀ y, (g1.getD y []).length = (g2.getD y []).length := by
  intro y
  by_cases hy : y < h
  · rw [h1.2 y hy, h2.2 y hy]
  · have k1 : g1.getD y [] = [] := List.getD_eq_default _ _ (by rw [h1.1]; exact le_of_not_lt hy)
    have k2 : g2.getD y [] = [] := List.getD_eq_default _ _ (by rw [h2.1]; exact le_of_not_lt hy)
    rw [k1, k2]

/-- Claim C7: `__add_results_to_global_map` copies every non-NaN local pixel into the
global map at the same coordinates (overwriting), never overwrites a global value with a
local NaN, and is idempotent: merging the same local map twice equals merging it once. -/
theorem c7_merge_copies_and_idempotent (g l : Grid) (h w : ℕ)
    (hg : rectGrid g h w) (hl : rectGrid l h w) :
    (∀ y x v, getCell l y x = some v →
      getCell (add_results_to_global_map g l) y x = some v) ∧
    (∀ y x, getCell l y x = none →
      getCell (add_results_to_global_map g l) y x = getCell g y x) ∧
    add_results_to_global_map (add_results_to_global_map g l) l
      = add_results_to_global_map g l := by
  have hb : ∀ g2 : Grid, rectGrid g2 h w → ∀ p ∈ nonNanIndices l,
      p.1 < g2.length ∧ p.2 < (g2.getD p.1 []).length := by
    intro g2 hg2 p hp
    obtain ⟨k1, k2⟩ := nonNan_lt_of_rect hl hp
    constructor
    · rw [hg2.1]
      exact k1
    · rw [hg2.2 p.1 k1]
      exact k2
  have key : ∀ y x, getCell (add_results_to_global_map g l) y x
      = if (y, x) ∈ nonNanIndices l then getCell l y x else getCell g y x :=
    foldl_setCell_getCell l (nonNanIndices l) g (hb g hg)
  have hm : rectGrid (add_results_to_global_map g l) h w :=
    foldl_setCell_rect l (nonNanIndices l) g h w hg
  have key2 : ∀ y x, getCell (add_results_to_global_map (add_results_to_global_map g l) l) y x
      = if (y, x) ∈ nonNanIndices l then getCell l y x
        else getCell (add_results_to_global_map g l) y x :=
    foldl_setCell_getCell l (nonNanIndices l) _ (hb _ hm)
  have hm2 : rectGrid (add_results_to_global_map (add_results_to_global_map g l) l) h w :=
    foldl_setCell_rect l (nonNanIndices l) _ h w hm
  refine ⟨?_, ?_, ?_⟩
  · intro y x v hv
    have hmem : (y, x) ∈ nonNanIndices l := by
      apply mem_nonNanIndices.2
      rw [hv]
      rfl
    rw [key y x, if_pos hmem]
    exact hv
  · intro y x hnone
    have hmem : (y, x) ∉ nonNanIndices l := by
      intro hm0
      have := mem_nonNanIndices.1 hm0
      rw [hnone] at this
      simp at this
    rw [key y x, if_neg hmem]
  · apply grid_ext
    · rw [hm2.1, hm.1]
    · exact rect_rowlen_all hm2 hm
    · intro y x
      rw [key2 y x, key y x]
      by_cases hmem : (y, x) ∈ nonNanIndices l
      · rw [if_pos hmem, if_pos hmem]
      · rw [if_neg hmem, if_neg hmem]

/-- Claim C7 witness: a concrete 2×2 merge with NaN and non-NaN local pixels. -/
theorem c7_witness :
    (rectGrid [[some 1, some 2], [none, none]] 2 2 ∧
      rectGrid [[none, some 5], [none, some 6]] 2 2) ∧
    ((∀ y x v, getCell [[none, some 5], [none, some 6]] y x = some v →
        getCell (add_results_to_global_map [[some 1, some 2], [none, none]]
          [[none, some 5], [none, some 6]]) y x = some v) ∧
      (∀ y x, getCell [[none, some 5], [none, some 6]] y x = none →
        getCell (add_results_to_global_map [[some 1, some 2], [none, none]]
          [[none, some 5], [none, some 6]]) y x
          = getCell [[some 1, some 2], [none, none]] y x) ∧
      add_results_to_global_map
        (add_results_to_global_map [[some 1, some 2], [none, none]]
          [[none, some 5], [none, some 6]])
        [[none, some 5], [none, some 6]]
        = add_results_to_global_map [[some 1, some 2], [none, none]]
            [[none, some 5], [none, some 6]]) :=
  ⟨⟨by decide, by decide⟩,
    c7_merge_copies_and_idempotent [[some 1, some 2], [none, none]]
      [[none, some 5], [none, some 6]] 2 2 (by decide) (by decide)⟩

/-! ### Nearest-value matching (C6) -/

theorem argminAbs_spec (v : ℚ) :
    ∀ l : List ℚ, l ≠ [] →
      ∃ j m, argminAbs v l = some (j, m) ∧ j < l.length ∧ l.getD j 0 = m ∧
        (∀ k, k < l.length → |m - v| ≤ |l.getD k 0 - v|) ∧
        (∀ k, k < j → |m - v| < |l.getD k 0 - v|) := by
  intro l
  induction l with
  | nil =>
      intro hne
      exact absurd rfl hne
  | cons o rest ih =>
      intro _
      by_cases hr : rest = []
      · subst hr
        refine ⟨0, o, rfl, by simp, rfl, ?_, ?_⟩
        · intro k hk
          simp only [List.length_cons, List.length_nil] at hk
          have hk0 : k = 0 := by omega
          subst hk0
          simp
        · intro k hk
          omega
      · obtain ⟨j, m, ham, hj, hget, hle, hlt⟩ := ih hr
        by_cases hcmp : |m - v| < |o - v|
        · refine ⟨j + 1, m, ?_, by simpa using hj, by simpa using hget, ?_, ?_⟩
          · simp only [argminAbs, ham]
            rw [if_pos hcmp]
          · intro k hk
            cases k with
            | zero => simpa using le_of_lt hcmp
            | succ k2 =>
                simp only [List.getD_cons_succ]
                exact hle k2 (by simpa using hk)
          · intro k hk
            cases k with
            | zero => simpa using hcmp
            | succ k2 =>
                simp only [List.getD_cons_succ]
                exact hlt k2 (by omega)
        · refine ⟨0, o, ?_, by simp, rfl, ?_, ?_⟩
          · simp only [argminAbs, ham]
            rw [if_neg hcmp]
          · intro k hk
            cases k with
            | zero => simp
            | succ k2 =>
                simp only [List.getD_cons_zero, List.getD_cons_succ]
                exact le_trans (not_lt.1 hcmp) (hle k2 (by simpa using hk))
          · intro k hk
            omega

theorem find_nearest_value_spec (array : List ℚ) (value : ℚ) (hne : array ≠ []) :
    ∃ j m, find_nearest_value array value = .ok m ∧ j < array.length ∧
      array.getD j 0 = m ∧ m ∈ array ∧
      (∀ k, k < array.length → |m - value| ≤ |array.getD k 0 - value|) ∧
      (∀ k, k < j → |m - value| < |array.getD k 0 - value|) := by
  obtain ⟨j, m, ham, hj, hget, hle, hlt⟩ := argminAbs_spec value array hne
  refine ⟨j, m, ?_, hj, hget, ?_, hle, hlt⟩
  · simp only [find_nearest_value, ham]
  · rw [← hget, List.getD_eq_getElem _ _ hj]
    exact List.getElem_mem hj

theorem mapM_ok_of_forall {α β : Type} (f : α → Except PyErr β) (g0 : α → β) :
    ∀ l : List α, (∀ a ∈ l, f a = .ok (g0 a)) → l.mapM f = .ok (l.map g0) := by
  intro l
  induction l with
  | nil =>
      intro _
      rfl
  | cons a rest ih =>
      intro hall
      rw [List.mapM_cons]
      have h1 : f a = .ok (g0 a) := hall a (List.mem_cons_self a rest)
      have h2 : rest.mapM f = .ok (rest.map g0) :=
        ih (fun b hb => hall b (List.mem_cons_of_mem _ hb))
      rw [h1, h2]
      rfl

theorem getCell_cellmap (nf : Cell → Cell) (hnone : nf none = none) (g : Grid) (y x : ℕ) :
    getCell (g.map (List.map nf)) y x = nf (getCell g y x) := by
  unfold getCell
  have h1 : (g.map (List.map nf)).getD y [] = List.map nf (g.getD y []) := by
    have h0 := @List.getD_map (List Cell) (List Cell) g [] y (List.map nf)
    simpa using h0
  rw [h1]
  have h2 := @List.getD_map Cell Cell (g.getD y []) none x nf
  rw [hnone] at h2
  exact h2

theorem getD_zipcell (f : ℚ → ℚ → ℚ) :
    ∀ r1 r2 : List Cell, r1.length = r2.length →
      ∀ x, (List.zipWith (cellBin f) r1 r2).getD x none
        = cellBin f (r1.getD x none) (r2.getD x none)
  | [], [], _, x => by
      simp [cellBin, List.getD]
  | [], _ :: _, hlen, _ => by simp at hlen
  | _ :: _, [], hlen, _ => by simp at hlen
  | a :: r1, b :: r2, hlen, x => by
      cases x with
      | zero => rfl
      | succ x2 =>
          simp only [List.zipWith_cons_cons, List.getD_cons_succ]
          exact getD_zipcell f r1 r2 (by simpa using hlen) x2

theorem getCell_gridSub (g1 : Grid) :
    ∀ g2 : Grid, g1.length = g2.length →
      (∀ y, (g1.getD y []).length = (g2.getD y []).length) →
      ∀ y x, getCell (gridSub g1 g2) y x
        = cellBin (fun a b => a - b) (getCell g1 y x) (getCell g2 y x) := by
  induction g1 with
  | nil =>
      intro g2 hlen _ y x
      cases g2 with
      | nil => simp [gridSub, getCell, cellBin, List.getD]
      | cons r2 t2 => simp at hlen
  | cons r1 t1 ih =>
      intro g2 hlen hrow y x
      cases g2 with
      | nil => simp at hlen
      | cons r2 t2 =>
          cases y with
          | zero =>
              have hr := hrow 0
              simp only [List.getD_cons_zero] at hr
              unfold getCell
              simp only [gridSub, List.zipWith_cons_cons, List.getD_cons_zero]
              exact getD_zipcell (fun a b => a - b) r1 r2 hr x
          | succ y2 =>
              unfold getCell
              simp only [gridSub, List.zipWith_cons_cons, List.getD_cons_succ]
              have := ih t2 (by simpa using hlen) (fun z => by simpa using hrow (z + 1)) y2 x
              unfold getCell at this
              unfold gridSub at this
              exact this

/-- Claim C6: `__get_nearest_map` maps every non-NaN pixel to the candidate minimizing
the absolute difference (first minimal index on ties, as `np.argmin` does), leaves NaN
pixels NaN in both outputs, returns the deviation map `observed − matched` elementwise,
and every matched pixel value is an element of the candidate list. -/
theorem c6_nearest_map (real_map : Grid) (options_list : List ℚ)
    (hne : options_list ≠ []) :
    ∃ new_map diff_map, get_nearest_map real_map options_list = .ok (new_map, diff_map) ∧
      ∀ y x,
        (getCell real_map y x = none →
          getCell new_map y x = none ∧ getCell diff_map y x = none) ∧
        (∀ v, getCell real_map y x = some v →
          ∃ j m, j < options_list.length ∧ options_list.getD j 0 = m ∧ m ∈ options_list ∧
            getCell new_map y x = some m ∧ getCell diff_map y x = some (v - m) ∧
            (∀ k, k < options_list.length → |m - v| ≤ |options_list.getD k 0 - v|) ∧
            (∀ k, k < j → |m - v| < |options_list.getD k 0 - v|)) := by
  classical
  let nf : Cell → Cell := fun c =>
    match c with
    | none => none
    | some v =>
        match argminAbs v options_list with
        | none => none
        | some jm => some jm.2
  have hnf_none : nf none = none := rfl
  have hcell : ∀ c : Cell, cellNearest options_list c = .ok (nf c) := by
    intro c
    cases c with
    | none => rfl
    | some v =>
        obtain ⟨j, m, ham, _, _, _, _⟩ := argminAbs_spec v options_list hne
        simp only [cellNearest, find_nearest_value, ham, nf]
  have hrow : ∀ row : List Cell,
      row.mapM (cellNearest options_list) = .ok (row.map nf) :=
    fun row => mapM_ok_of_forall _ nf row (fun a _ => hcell a)
  have hgrid : real_map.mapM (fun row => row.mapM (cellNearest options_list))
      = .ok (real_map.map (List.map nf)) :=
    mapM_ok_of_forall _ (List.map nf) real_map (fun row _ => hrow row)
  have hlen : real_map.length = (real_map.map (List.map nf)).length := by simp
  have hrowlen : ∀ y, (real_map.getD y []).length
      = ((real_map.map (List.map nf)).getD y []).length := by
    intro y
    have h1 : (real_map.map (List.map nf)).getD y [] = List.map nf (real_map.getD y []) := by
      have h0 := @List.getD_map (List Cell) (List Cell) real_map [] y (List.map nf)
      simpa using h0
    rw [h1]
    simp
  refine ⟨real_map.map (List.map nf), gridSub real_map (real_map.map (List.map nf)),
    ?_, ?_⟩
  · simp only [get_nearest_map, hgrid]
  · intro y x
    have hnew := getCell_cellmap nf hnf_none real_map y x
    have hdiff := getCell_gridSub real_map (real_map.map (List.map nf)) hlen hrowlen y x
    constructor
    · intro hnone
      rw [hnone] at hnew
      rw [hnf_none] at hnew
      refine ⟨hnew, ?_⟩
      rw [hdiff, hnone, hnew]
      rfl
    · intro v hv
      obtain ⟨j, m, ham, hj, hget, hle, hlt⟩ := argminAbs_spec v options_list hne
      have hmem : m ∈ options_list := by
        rw [← hget, List.getD_eq_getElem _ _ hj]
        exact List.getElem_mem hj
      have hnewv : getCell (real_map.map (List.map nf)) y x = some m := by
        rw [hnew, hv]
        simp only [nf, ham]
      refine ⟨j, m, hj, hget, hmem, hnewv, ?_, hle, hlt⟩
      rw [hdiff, hv, hnewv]
      rfl

/-- Claim C6 witness: a 2×2 map with one NaN pixel matched against candidates `[1, 2]`. -/
theorem c6_witness :
    ([1, 2] ≠ ([] : List ℚ)) ∧
    (∃ new_map diff_map,
      get_nearest_map [[some 1, none], [some (17/10), some 3]] [1, 2]
        = .ok (new_map, diff_map) ∧
      ∀ y x,
        (getCell [[some 1, none], [some (17/10), some 3]] y x = none →
          getCell new_map y x = none ∧ getCell diff_map y x = none) ∧
        (∀ v, getCell [[some 1, none], [some (17/10), some 3]] y x = some v →
          ∃ j m, j < ([1, 2] : List ℚ).length ∧ ([1, 2] : List ℚ).getD j 0 = m ∧
            m ∈ ([1, 2] : List ℚ) ∧
            getCell new_map y x = some m ∧ getCell diff_map y x = some (v - m) ∧
            (∀ k, k < ([1, 2] : List ℚ).length →
              |m - v| ≤ |([1, 2] : List ℚ).getD k 0 - v|) ∧
            (∀ k, k < j → |m - v| < |([1, 2] : List ℚ).getD k 0 - v|))) :=
  ⟨by decide, c6_nearest_map [[some 1, none], [some (17/10), some 3]] [1, 2] (by decide)⟩

/-! ### Curve resampling and extrema (C8) -/

theorem length_linspace (a b : ℚ) (n : ℕ) : (linspace a b n).length = n := by
  rw [linspace, List.length_map, List.length_range]

theorem linspace_getD (a b : ℚ) (n i : ℕ) (hi : i < n) :
    (linspace a b n).getD i 0 = a + (i : ℚ) * ((b - a) / ((n : ℚ) - 1)) := by
  have hi2 : i < (linspace a b n).length := by
    rw [length_linspace]
    exact hi
  rw [List.getD_eq_getElem _ _ hi2]
  simp only [linspace, List.getElem_map, List.getElem_range]

theorem foldl_min_choice (v : ℚ) : ∀ l : List ℚ, l.foldl min v = v ∨ l.foldl min v ∈ l
  | [] => Or.inl rfl
  | o :: rest => by
      simp only [List.foldl_cons]
      rcases foldl_min_choice (min v o) rest with h | h
      · rcases min_choice v o with h2 | h2
        · exact Or.inl (h.trans h2)
        · refine Or.inr ?_
          rw [h, h2]
          exact List.mem_cons_self o rest
      · exact Or.inr (List.mem_cons_of_mem _ h)

theorem foldl_min_le (v : ℚ) : ∀ l : List ℚ, l.foldl min v ≤ v ∧ ∀ u ∈ l, l.foldl min v ≤ u
  | [] => ⟨le_refl v, by simp⟩
  | o :: rest => by
      simp only [List.foldl_cons]
      obtain ⟨h1, h2⟩ := foldl_min_le (min v o) rest
      refine ⟨le_trans h1 (min_le_left v o), ?_⟩
      intro u hu
      rcases List.mem_cons.1 hu with rfl | hm
      · exact le_trans h1 (min_le_right v u)
      · exact h2 u hm

theorem foldl_max_choice (v : ℚ) : ∀ l : List ℚ, l.foldl max v = v ∨ l.foldl max v ∈ l
  | [] => Or.inl rfl
  | o :: rest => by
      simp only [List.foldl_cons]
      rcases foldl_max_choice (max v o) rest with h | h
      · rcases max_choice v o with h2 | h2
        · exact Or.inl (h.trans h2)
        · refine Or.inr ?_
          rw [h, h2]
          exact List.mem_cons_self o rest
      · exact Or.inr (List.mem_cons_of_mem _ h)

theorem foldl_max_ge (v : ℚ) : ∀ l : List ℚ, v ≤ l.foldl max v ∧ ∀ u ∈ l, u ≤ l.foldl max v
  | [] => ⟨le_refl v, by simp⟩
  | o :: rest => by
      simp only [List.foldl_cons]
      obtain ⟨h1, h2⟩ := foldl_max_ge (max v o) rest
      refine ⟨le_trans (le_max_left v o) h1, ?_⟩
      intro u hu
      rcases List.mem_cons.1 hu with rfl | hm
      · exact le_trans (le_max_right v u) h1
      · exact h2 u hm

theorem nanmin_spec (l : List ℚ) (hne : l ≠ []) :
    ∃ mn, nanmin l = .ok mn ∧ mn ∈ l ∧ ∀ u ∈ l, mn ≤ u := by
  cases l with
  | nil => exact absurd rfl hne
  | cons v rest =>
      refine ⟨rest.foldl min v, rfl, ?_, ?_⟩
      · rcases foldl_min_choice v rest with h | h
        · rw [h]
          exact List.mem_cons_self v rest
        · exact List.mem_cons_of_mem _ h
      · intro u hu
        rcases List.mem_cons.1 hu with heq | hm
        · rw [heq]
          exact (foldl_min_le v rest).1
        · exact (foldl_min_le v rest).2 u hm

theorem nanmax_spec (l : List ℚ) (hne : l ≠ []) :
    ∃ mx, nanmax l = .ok mx ∧ mx ∈ l ∧ ∀ u ∈ l, u ≤ mx := by
  cases l with
  | nil => exact absurd rfl hne
  | cons v rest =>
      refine ⟨rest.foldl max v, rfl, ?_, ?_⟩
      · rcases foldl_max_choice v rest with h | h
        · rw [h]
          exact List.mem_cons_self v rest
        · exact List.mem_cons_of_mem _ h
      · intro u hu
        rcases List.mem_cons.1 hu with heq | hm
        · rw [heq]
          exact (foldl_max_ge v rest).1
        · exact (foldl_max_ge v rest).2 u hm

/-- Claim C8: `get_curve_vals` evaluates the fitted curve on a resampled density axis of
the same length as the sample table, evenly spaced from the first to the last sampled
density, and `__get_min_max_from_fitted_ratio_curve` returns attained values of the
evaluated curve on that axis (elements of the curve array bounding it from below and
above), not external bounds. -/
theorem c8_curve_range_attained (nH2 popt : List ℚ) (hne : nH2 ≠ []) :
    (get_curve_vals nH2 popt).1.length = nH2.length ∧
    (get_curve_vals nH2 popt).2 = (get_curve_vals nH2 popt).1.map (polyEval popt) ∧
    (get_curve_vals nH2 popt).1.getD 0 0 = nH2.getD 0 0 ∧
    (get_curve_vals nH2 popt).1.getD (nH2.length - 1) 0 = nH2.getD (nH2.length - 1) 0 ∧
    (∀ i, i + 1 < nH2.length →
      (get_curve_vals nH2 popt).1.getD (i + 1) 0 - (get_curve_vals nH2 popt).1.getD i 0
        = (nH2.getD (nH2.length - 1) 0 - nH2.getD 0 0) / ((nH2.length : ℚ) - 1)) ∧
    (∃ mn mx,
      get_min_max_from_fitted_ratio_curve (get_curve_vals nH2 popt).2 = .ok (mn, mx) ∧
      mn ∈ (get_curve_vals nH2 popt).2 ∧ mx ∈ (get_curve_vals nH2 popt).2 ∧
      ∀ u ∈ (get_curve_vals nH2 popt).2, mn ≤ u ∧ u ≤ mx) := by
  have hn : 0 < nH2.length := List.length_pos.2 hne
  have hxlen : (get_curve_vals nH2 popt).1.length = nH2.length := by
    simp [get_curve_vals, length_linspace]
  refine ⟨hxlen, rfl, ?_, ?_, ?_, ?_⟩
  · show (linspace (nH2.getD 0 0) (nH2.getD (nH2.length - 1) 0) nH2.length).getD 0 0 = _
    rw [linspace_getD _ _ _ 0 hn]
    simp
  · show (linspace (nH2.getD 0 0) (nH2.getD (nH2.length - 1) 0) nH2.length).getD
      (nH2.length - 1) 0 = _
    rw [linspace_getD _ _ _ (nH2.length - 1) (by omega)]
    rcases Nat.lt_or_ge nH2.length 2 with h2 | h2
    · have h1 : nH2.length = 1 := by omega
      rw [h1]
      norm_num
    · have hcast : ((nH2.length - 1 : ℕ) : ℚ) = (nH2.length : ℚ) - 1 := by
        push_cast [Nat.cast_sub (by omega : 1 ≤ nH2.length)]
        ring
      have hnz : ((nH2.length : ℚ) - 1) ≠ 0 := by
        have : (2 : ℚ) ≤ (nH2.length : ℚ) := by exact_mod_cast h2
        intro hc
        rw [sub_eq_zero] at hc
        rw [hc] at this
        norm_num at this
      rw [hcast]
      field_simp
  · intro i hi
    show (linspace (nH2.getD 0 0) (nH2.getD (nH2.length - 1) 0) nH2.length).getD (i + 1) 0
        - (linspace (nH2.getD 0 0) (nH2.getD (nH2.length - 1) 0) nH2.length).getD i 0 = _
    rw [linspace_getD _ _ _ (i + 1) hi, linspace_getD _ _ _ i (by omega)]
    push_cast
    ring
  · have hcne : (get_curve_vals nH2 popt).2 ≠ [] := by
      show get_ratio_curve _ popt ≠ []
      unfold get_ratio_curve
      intro hc
      rw [List.map_eq_nil_iff] at hc
      have := length_linspace (nH2.getD 0 0) (nH2.getD (nH2.length - 1) 0) nH2.length
      rw [hc] at this
      simp at this
      omega
    obtain ⟨mn, hmn, hmnmem, hmnle⟩ := nanmin_spec _ hcne
    obtain ⟨mx, hmx, hmxmem, hmxge⟩ := nanmax_spec _ hcne
    refine ⟨mn, mx, ?_, hmnmem, hmxmem, fun u hu => ⟨hmnle u hu, hmxge u hu⟩⟩
    simp only [get_min_max_from_fitted_ratio_curve, hmn, hmx]

/-- Claim C8 witness: the sample densities `[2, 4, 6]` with the affine curve `1 + x`. -/
theorem c8_witness :
    ([2, 4, 6] ≠ ([] : List ℚ)) ∧
    ((get_curve_vals [2, 4, 6] [1, 1]).1.length = ([2, 4, 6] : List ℚ).length ∧
      (get_curve_vals [2, 4, 6] [1, 1]).2
        = (get_curve_vals [2, 4, 6] [1, 1]).1.map (polyEval [1, 1]) ∧
      (get_curve_vals [2, 4, 6] [1, 1]).1.getD 0 0 = ([2, 4, 6] : List ℚ).getD 0 0 ∧
      (get_curve_vals [2, 4, 6] [1, 1]).1.getD (([2, 4, 6] : List ℚ).length - 1) 0
        = ([2, 4, 6] : List ℚ).getD (([2, 4, 6] : List ℚ).length - 1) 0 ∧
      (∀ i, i + 1 < ([2, 4, 6] : List ℚ).length →
        (get_curve_vals [2, 4, 6] [1, 1]).1.getD (i + 1) 0
          - (get_curve_vals [2, 4, 6] [1, 1]).1.getD i 0
          = (([2, 4, 6] : List ℚ).getD (([2, 4, 6] : List ℚ).length - 1) 0
              - ([2, 4, 6] : List ℚ).getD 0 0) / ((([2, 4, 6] : List ℚ).length : ℚ) - 1)) ∧
      (∃ mn mx,
        get_min_max_from_fitted_ratio_curve (get_curve_vals [2, 4, 6] [1, 1]).2
          = .ok (mn, mx) ∧
        mn ∈ (get_curve_vals [2, 4, 6] [1, 1]).2 ∧
        mx ∈ (get_curve_vals [2, 4, 6] [1, 1]).2 ∧
        ∀ u ∈ (get_curve_vals [2, 4, 6] [1, 1]).2, mn ≤ u ∧ u ≤ mx)) :=
  ⟨by decide, c8_curve_range_attained [2, 4, 6] [1, 1] (by decide)⟩

/-! ### Catalog building (C9) -/

/-- Claim C9: on a directory listing with no `.dat` filenames,
`get_colDens_list_from_files` does not return a result: the per-density count list is
empty, and `__verify_equality_in_list` indexes its first element and the `IndexError`
propagates (`__verify_equality_in_list` has the unstated precondition of a non-empty
input list). -/
theorem c9_empty_catalog_index_error (grid_path : String) (files : List String)
    (hnone : ∀ f ∈ files, isDatFile f = false) :
    get_colDens_list_from_files grid_path files = .error .indexError ∧
    verify_equality_in_list [] = .error .indexError := by
  constructor
  · have hfil : files.filter isDatFile = [] := by
      apply List.filter_eq_nil_iff.2
      intro a ha
      rw [hnone a ha]
      simp
    simp only [get_colDens_list_from_files, hfil]
    rfl
  · rfl

/-- Claim C9 witness: a directory with two non-`.dat` files. -/
theorem c9_witness :
    (∀ f ∈ ["readme.txt", "grid.csv"], isDatFile f = false) ∧
    (get_colDens_list_from_files "grids" ["readme.txt", "grid.csv"]
        = .error .indexError ∧
      verify_equality_in_list [] = .error .indexError) :=
  ⟨by with_unfolding_all decide,
    c9_empty_catalog_index_error "grids" ["readme.txt", "grid.csv"]
      (by with_unfolding_all decide)⟩

/-! ### Construction and uncertainty initialization (C4, C5, C10) -/

/-- Claim C5 counterexample: brightness maps of shapes `1×2` and `1×3` — which numpy
cannot broadcast, so the division raises — together with a relative-uncertainty pair of
two floats.  The division failure is caught and printed, but the uncertainty branch
then evaluates `self.astro_image * rel_unc` on the instance whose `astro_image` was
never set, and the resulting `AttributeError` propagates out of the constructor — so
construction *does* raise for this input combination. -/
theorem c5_counterexample :
    ratio_map_init ratSqrt [[some 1, some 1]] [[some 1, some 2, some 3]]
      (some [UncInput.flt (1/10), UncInput.flt (1/10)]) = .error .attributeError := by
  with_unfolding_all decide

/-- Claim C5 (amended): when dividing the two input maps raises (their shapes are not
broadcast-compatible), the constructor catches the error, does not re-raise, and
returns a degraded instance with no ratio grid — provided no relative uncertainties
are supplied, or the supplied uncertainty list does not have exactly two entries; a
two-entry uncertainty input on a degraded instance instead propagates an error (see
the counterexample). -/
theorem c5_division_failure_degraded (s : ℚ → ℚ) (data1 data2 : Grid)
    (hdiv : gridDivE data1 data2 = .error .valueError) :
    ratio_map_init s data1 data2 none = .ok ⟨none, none⟩ ∧
    (∀ uncs : List UncInput, uncs.length ≠ 2 →
      ratio_map_init s data1 data2 (some uncs) = .ok ⟨none, none⟩) := by
  constructor
  · simp only [ratio_map_init, hdiv]
  · intro uncs hlen
    match uncs with
    | [] => simp only [ratio_map_init, hdiv]
    | [u0] => simp only [ratio_map_init, hdiv]
    | [u0, u1] => exact absurd rfl hlen
    | u0 :: u1 :: u2 :: rest => simp only [ratio_map_init, hdiv]

/-- Claim C5 witness: `1×2` and `1×3` maps are not broadcast-compatible, the division
raises, and without an uncertainty pair the constructor returns the degraded
instance. -/
theorem c5_witness :
    (gridDivE [[some 1, some 1]] [[some 1, some 2, some 3]] = .error .valueError) ∧
    (ratio_map_init ratSqrt [[some 1, some 1]] [[some 1, some 2, some 3]] none
        = .ok ⟨none, none⟩ ∧
      (∀ uncs : List UncInput, uncs.length ≠ 2 →
        ratio_map_init ratSqrt [[some 1, some 1]] [[some 1, some 2, some 3]] (some uncs)
          = .ok ⟨none, none⟩)) :=
  ⟨by with_unfolding_all decide,
    c5_division_failure_degraded ratSqrt [[some 1, some 1]] [[some 1, some 2, some 3]]
      (by with_unfolding_all decide)⟩

/-- Claim C4: the failing input.  With a `2×2` ratio map and `rel_uncs` a pair of
arrays of shapes `2×2` (correct) and `2×3` (wrong), `__verify_input_uncertainty`
*passes* — line 288 tests `rel_uncs[0].shape` twice and never `rel_uncs[1].shape` — so
no message is printed, and `__create_uncertainty_array` then raises an uncaught
`ValueError` from `rel_uncs[0]**2 + rel_uncs[1]**2` (the shapes are not even
broadcastable), so construction fails instead of succeeding with `rat_unc` absent, and
the claimed invariant path is never reached.  The second conjunct exhibits the slip:
verification accepts the ill-shaped second array. -/
theorem c4_shape_slip_raises :
    ratio_map_init ratSqrt [[some 1, some 1], [some 1, some 1]]
      [[some 1, some 1], [some 1, some 1]]
      (some [UncInput.arr [[some 1, some 1], [some 1, some 1]],
             UncInput.arr [[some 1, some 1, some 1], [some 1, some 1, some 1]]])
      = .error .valueError ∧
    verify_input_uncertainty (some [[some 1, some 1], [some 1, some 1]])
      (UncInput.arr [[some 1, some 1], [some 1, some 1]])
      (UncInput.arr [[some 1, some 1, some 1], [some 1, some 1, some 1]]) = .ok true := by
  with_unfolding_all decide

theorem gridShape_parts {g1 g2 : Grid} (h : gridShape g1 = gridShape g2) :
    g1.length = g2.length ∧ ∀ y, (g1.getD y []).length = (g2.getD y []).length := by
  have hlen : g1.length = g2.length := by
    have := congrArg List.length h
    simpa [gridShape] using this
  refine ⟨hlen, fun y => ?_⟩
  by_cases hy : y < g1.length
  · have h1 := @List.getD_map (List Cell) ℕ g1 [] y List.length
    have h2 := @List.getD_map (List Cell) ℕ g2 [] y List.length
    have h3 := congrArg (fun l => l.getD y 0) h
    simp only [gridShape] at h3
    simp only [List.length_nil] at h1 h2
    rw [← h1, ← h2, h3]
  · have k1 : g1.getD y [] = [] := List.getD_eq_default _ _ (le_of_not_lt hy)
    have k2 : g2.getD y [] = [] := List.getD_eq_default _ _ (by rw [← hlen]; exact le_of_not_lt hy)
    rw [k1, k2]

theorem getCell_zipgrid (f : ℚ → ℚ → ℚ) (g1 : Grid) :
    ∀ g2 : Grid, g1.length = g2.length →
      (∀ y, (g1.getD y []).length = (g2.getD y []).length) →
      ∀ y x, getCell (List.zipWith (List.zipWith (cellBin f)) g1 g2) y x
        = cellBin f (getCell g1 y x) (getCell g2 y x) := by
  induction g1 with
  | nil =>
      intro g2 hlen _ y x
      cases g2 with
      | nil => simp [getCell, cellBin, List.getD]
      | cons r2 t2 => simp at hlen
  | cons r1 t1 ih =>
      intro g2 hlen hrow y x
      cases g2 with
      | nil => simp at hlen
      | cons r2 t2 =>
          cases y with
          | zero =>
              have hr := hrow 0
              simp only [List.getD_cons_zero] at hr
              unfold getCell
              simp only [List.zipWith_cons_cons, List.getD_cons_zero]
              exact getD_zipcell f r1 r2 hr x
          | succ y2 =>
              unfold getCell
              simp only [List.zipWith_cons_cons, List.getD_cons_succ]
              have := ih t2 (by simpa using hlen) (fun z => by simpa using hrow (z + 1)) y2 x
              unfold getCell at this
              exact this

theorem gridZip_ok_getCell (f : ℚ → ℚ → ℚ) (g1 g2 g : Grid)
    (hok : gridZip (cellBin f) g1 g2 = .ok g) :
    ∀ y x, getCell g y x = cellBin f (getCell g1 y x) (getCell g2 y x) := by
  by_cases hsh : gridShape g1 = gridShape g2
  · have hg : g = List.zipWith (List.zipWith (cellBin f)) g1 g2 := by
      simp only [gridZip, if_pos hsh] at hok
      exact (Except.ok.inj hok).symm
    obtain ⟨hlen, hrow⟩ := gridShape_parts hsh
    intro y x
    rw [hg]
    exact getCell_zipgrid f g1 g2 hlen hrow y x
  · simp only [gridZip, if_neg hsh] at hok
    exact Except.noConfusion hok

theorem getCell_gridMap (f : ℚ → ℚ) (g : Grid) (y x : ℕ) :
    getCell (gridMap f g) y x = cellMap f (getCell g y x) :=
  getCell_cellmap (cellMap f) rfl g y x

/-- Claim C10 counterexample: the relative uncertainties `(0.0, 0.0)` are a valid float
pair, so the input is accepted and `rat_unc` is stored; at the pixel where the ratio is
`-1` (negative) the stored uncertainty is `-1 * sqrt(0) = 0`, which is *not* negative —
so the claim that the stored uncertainty is negative at every negative-ratio pixel
fails (it needs a nonzero combined relative uncertainty). -/
theorem c10_counterexample :
    ratio_map_init ratSqrt [[some (-1)]] [[some 1]]
      (some [UncInput.flt 0, UncInput.flt 0])
      = .ok ⟨some [[some (-1)]], some [[some 0]]⟩ ∧
    getCell [[some (-1)]] 0 0 = some (-1) ∧ ((-1 : ℚ) < 0) ∧
    getCell [[some 0]] 0 0 = some 0 ∧ ¬ ((0 : ℚ) < 0) := by
  with_unfolding_all decide

/-- Claim C10 (amended): the stored uncertainty grid equals the ratio grid multiplied
elementwise by `sqrt(rel1² + rel2²)` with no absolute value taken (for float or array
uncertainty inputs alike); consequently at every pixel where the ratio is negative
*and* the combined relative uncertainty is strictly positive, the stored uncertainty is
negative, which swaps the roles of the two perturbations in the subsequent error
propagation: `up_err = ratio + unc` then lies *below* the ratio and
`low_err = ratio − unc` lies *above* it. -/
theorem c10_no_abs_sign_swap (s : ℚ → ℚ) (astro g : Grid) (u0 u1 : UncInput)
    (y x : ℕ) (r q : ℚ)
    (hok : create_uncertainty_array s (some astro) u0 u1 = .ok g)
    (hcell : getCell astro y x = some r)
    (hq : relUncCell s u0 u1 y x = some q) :
    getCell g y x = some (r * q) ∧
    (r < 0 → 0 < q → r * q < 0 ∧ up_err r (r * q) < r ∧ r < low_err r (r * q)) := by
  have harith : getCell g y x = some (r * q) →
      getCell g y x = some (r * q) ∧
      (r < 0 → 0 < q → r * q < 0 ∧ up_err r (r * q) < r ∧ r < low_err r (r * q)) := by
    intro hg
    refine ⟨hg, fun hr hq0 => ?_⟩
    have hneg : r * q < 0 := mul_neg_of_neg_of_pos hr hq0
    refine ⟨hneg, ?_, ?_⟩
    · unfold up_err
      linarith
    · unfold low_err
      linarith
  apply harith
  cases u0 with
  | flt v0 =>
      cases u1 with
      | flt v1 =>
          simp only [create_uncertainty_array] at hok
          have hg := Except.ok.inj hok
          have hqv : q = s (v0 ^ 2 + v1 ^ 2) := by
            simp only [relUncCell, uncInputCell, cellBin, cellMap, Option.map] at hq
            exact (Option.some.inj hq).symm
          rw [← hg]
          show getCell (gridMap (· * s (v0 ^ 2 + v1 ^ 2)) astro) y x = _
          rw [getCell_gridMap, hcell]
          simp only [cellMap, Option.map]
          rw [hqv]
      | arr g1 =>
          simp only [create_uncertainty_array] at hok
          cases hb : getCell g1 y x with
          | none =>
              simp only [relUncCell, uncInputCell, hb, cellBin, cellMap] at hq
              simp at hq
          | some b =>
              have hqv : q = s (v0 ^ 2 + b ^ 2) := by
                simp only [relUncCell, uncInputCell, hb, cellBin, cellMap, Option.map] at hq
                exact (Option.some.inj hq).symm
              have hok2 : gridZip (cellBin (· * ·)) astro
                  (gridMap (fun t => s (v0 ^ 2 + t ^ 2)) g1) = .ok g := hok
              have hcg := gridZip_ok_getCell (· * ·) astro
                (gridMap (fun t => s (v0 ^ 2 + t ^ 2)) g1) g hok2 y x
              rw [hcg, hcell, getCell_gridMap, hb]
              simp only [cellMap, Option.map, cellBin]
              rw [hqv]
  | arr g0 =>
      cases u1 with
      | flt v1 =>
          simp only [create_uncertainty_array] at hok
          cases ha : getCell g0 y x with
          | none =>
              simp only [relUncCell, uncInputCell, ha, cellBin, cellMap] at hq
              simp at hq
          | some a =>
              have hqv : q = s (a ^ 2 + v1 ^ 2) := by
                simp only [relUncCell, uncInputCell, ha, cellBin, cellMap, Option.map] at hq
                exact (Option.some.inj hq).symm
              have hok2 : gridZip (cellBin (· * ·)) astro
                  (gridMap (fun t => s (t ^ 2 + v1 ^ 2)) g0) = .ok g := hok
              have hcg := gridZip_ok_getCell (· * ·) astro
                (gridMap (fun t => s (t ^ 2 + v1 ^ 2)) g0) g hok2 y x
              rw [hcg, hcell, getCell_gridMap, ha]
              simp only [cellMap, Option.map, cellBin]
              rw [hqv]
      | arr g1 =>
          simp only [create_uncertainty_array] at hok
          cases hadd : gridAddE (gridMap (fun t => t ^ 2) g0) (gridMap (fun t => t ^ 2) g1) with
          | error e =>
              simp only [hadd] at hok
              exact Except.noConfusion hok
          | ok sq2 =>
              simp only [hadd] at hok
              cases ha : getCell g0 y x with
              | none =>
                  simp only [relUncCell, uncInputCell, ha, cellBin, cellMap] at hq
                  simp at hq
              | some a =>
                  cases hb : getCell g1 y x with
                  | none =>
                      simp only [relUncCell, uncInputCell, ha, hb, cellBin, cellMap] at hq
                      simp at hq
                  | some b =>
                      have hqv : q = s (a ^ 2 + b ^ 2) := by
                        simp only [relUncCell, uncInputCell, ha, hb, cellBin, cellMap,
                          Option.map] at hq
                        exact (Option.some.inj hq).symm
                      have hadd2 : gridZip (cellBin (· + ·))
                          (gridMap (fun t => t ^ 2) g0) (gridMap (fun t => t ^ 2) g1)
                          = .ok sq2 := hadd
                      have hsq := gridZip_ok_getCell (· + ·)
                        (gridMap (fun t => t ^ 2) g0) (gridMap (fun t => t ^ 2) g1)
                        sq2 hadd2 y x
                      rw [getCell_gridMap, getCell_gridMap, ha, hb] at hsq
                      simp only [cellMap, Option.map, cellBin] at hsq
                      have hok2 : gridZip (cellBin (· * ·)) astro (gridMap s sq2)
                          = .ok g := hok
                      have hcg := gridZip_ok_getCell (· * ·) astro (gridMap s sq2) g
                        hok2 y x
                      rw [hcg, hcell, getCell_gridMap, hsq]
                      simp only [cellMap, Option.map, cellBin]
                      rw [hqv]

/-- Claim C10 witness: ratio pixel `-2` with accepted float uncertainties `(3/5, 4/5)`
whose quadrature is exactly `1`: the stored uncertainty is `-2`, negative, and the two
perturbation targets swap around the ratio. -/
theorem c10_witness :
    (create_uncertainty_array ratSqrt (some [[some (-2)]])
        (UncInput.flt (3/5)) (UncInput.flt (4/5)) = .ok [[some (-2)]] ∧
      getCell [[some (-2)]] 0 0 = some (-2) ∧
      relUncCell ratSqrt (UncInput.flt (3/5)) (UncInput.flt (4/5)) 0 0 = some 1) ∧
    (getCell [[some (-2)]] 0 0 = some ((-2) * 1) ∧
      ((-2 : ℚ) < 0 → (0 : ℚ) < 1 →
        (-2 : ℚ) * 1 < 0 ∧ up_err (-2) ((-2) * 1) < -2 ∧ (-2 : ℚ) < low_err (-2) ((-2) * 1))) :=
  ⟨⟨by with_unfolding_all decide, by with_unfolding_all decide,
      by with_unfolding_all decide⟩,
    c10_no_abs_sign_swap ratSqrt [[some (-2)]] [[some (-2)]]
      (UncInput.flt (3/5)) (UncInput.flt (4/5)) 0 0 (-2) 1
      (by with_unfolding_all decide) (by with_unfolding_all decide)
      (by with_unfolding_all decide)⟩
